import Mathlib

/-!
Verification of the home-oriented ride-dispatch engine.

This file gives a shallow embedding, in Lean 4, of the dispatcher implemented
in `home_oriented_main.py` (data model, feasibility check, single-booking
commit, ending/middle search, route completion with the efficiency gate, and
the batch-planner driver `process_bookings_home_oriented`), of the service
helpers `_calculate_ddm` / `_calculate_active_km` from `service.py`, of the
booking-locking steps of the real-time simulators (`instant_simple.py`
`update_locked_bookings` and `instant.py` `update_locked_assignments`), of the
per-class rate tables with their `dict.get` fallbacks, and of the haversine
distance estimator `get_distance` from `Helper_func.py`.

Modelling conventions:
* Python floats carried by the planner (coordinates, kilometres, minutes) are
  represented by `ℚ`; all planner decisions are order/equality comparisons and
  exact field arithmetic, which ℚ models faithfully.
* A latitude/longitude pair (`lat`, `lng`/`lon` fields) is a `Point`.
* `pickup_time` strings are represented by their parsed minutes-from-midnight
  value `pickup_min` (the code always reads them through
  `_get_pickup_time_minutes`, which is deterministic for well-formed stamps).
* The `vehicle_type` strings `"classN"` are represented in the planner by the
  parsed class number `N` (the code parses them with
  `int(s.replace("class",""))`); the stringly-keyed rate dictionaries are
  embedded separately (as `String`-keyed association lists) for the
  rate-fallback claim.
* The booking field `travel_time` is optional in the data (`booking.get`), so
  it is an `Option ℚ`; each call site applies its own default (0 or 30),
  exactly as in the source.
* The distance oracle `get_distance` and the H3 spatial index are external
  collaborators of the planner (pure functions); the planner embedding is
  parameterised over them by an `Oracles` record.  `latlngToH3` returns
  `none` where the Python function returns the falsy `""`; `gridRing` returns
  `none` where `h3.grid_ring` raises.  The real `get_distance` itself is
  embedded over `ℝ` at the end of the file for the metric claims.
* Python `set`s of booking ids are represented by `List ℕ` used only through
  membership, and mutation of `self.vehicles[i]` by `List.set`.
-/

set_option maxHeartbeats 4000000

namespace Dispatch

/-- A latitude/longitude pair, as carried in the `*_lat` / `*_lng` / `*_lon`
fields of the Python dictionaries. -/
structure Point where
  lat : ℚ
  lng : ℚ
deriving DecidableEq, Inhabited

/-- A booking record (`bookings.json` entry).  `pickup_min` is
`_get_pickup_time_minutes(booking["pickup_time"])`; `vclass` is the parsed
class number of `vehicle_type`; `travel_time` is the optional
`"travel_time"` key. -/
structure Booking where
  booking_id : ℕ
  pickup : Point
  drop : Point
  pickup_min : ℚ
  vclass : ℕ
  distance_km : ℚ
  travel_time : Option ℚ
deriving DecidableEq, Inhabited

/-- The mutable `VehicleState` dataclass of `home_oriented_main.py`.
`current` bundles `current_lat/current_lng`, `home` bundles
`home_lat/home_lng`, and `h3_hex` is `none` where the Python field holds the
falsy empty string. -/
structure VehicleState where
  vehicle_id : ℕ
  home : Point
  current : Point
  vclass : ℕ
  route : List Point
  assigned_bookings : List ℕ
  active_km : ℚ
  dead_km : ℚ
  available_time : ℚ
  h3_hex : Option ℕ
  total_driver_pay : ℚ
  is_routed : Bool
deriving DecidableEq, Inhabited

/-- The external collaborators of the planner: the road-distance estimator
`get_distance` and the H3 index (`latlng_to_h3`, `h3.grid_ring`,
`get_h3_distance`).  H3 cell ids are abstracted as `ℕ`. -/
structure Oracles where
  dist : Point → Point → ℚ
  latlngToH3 : Point → Option ℕ
  gridRing : ℕ → ℕ → Option (List ℕ)
  h3Dist : Option ℕ → Option ℕ → ℚ

/-- `calculate_travel_time`: `(distance_km / 30) * 60`. -/
def calculate_travel_time (d : ℚ) : ℚ := d / 30 * 60

/-- The `active_driver_pay` dictionary, keyed by parsed class number. -/
def active_driver_pay (c : ℕ) : Option ℚ :=
  match c with
  | 1 => some 16
  | 2 => some 20
  | 3 => some 22
  | 4 => some 26
  | 5 => some 32
  | 6 => some 40
  | 7 => some 50
  | 8 => some 60
  | 9 => some 70
  | _ => none

/-- The `dead_driver_pay` dictionary, keyed by parsed class number. -/
def dead_driver_pay (c : ℕ) : Option ℚ :=
  match c with
  | 1 => some 10
  | 2 => some 15
  | 3 => some 18
  | 4 => some 22
  | 5 => some 28
  | 6 => some 32
  | 7 => some 40
  | 8 => some 50
  | 9 => some 60
  | _ => none

/-- `self.active_driver_pay.get(vehicle_type, 16)` as used in
`assign_booking_to_vehicle`. -/
def activePayGet (c : ℕ) : ℚ := (active_driver_pay c).getD 16

/-- `self.dead_driver_pay.get(vehicle_type, 10)` as used in
`assign_booking_to_vehicle`, `complete_vehicle_route` and the finalisation
loop of `process_bookings_home_oriented`. -/
def deadPayGet (c : ℕ) : ℚ := (dead_driver_pay c).getD 10

/-- `is_vehicle_available_for_booking`: the vehicle can reach the pickup no
later than 60 minutes after the booking's pickup time. -/
def is_vehicle_available_for_booking (O : Oracles) (v : VehicleState) (b : Booking) : Bool :=
  decide (v.available_time + calculate_travel_time (O.dist v.current b.pickup)
            ≤ b.pickup_min + 60)

/-- The drop-to-next-pickup legs of the dead-km recomputation inside
`assign_booking_to_vehicle` (`for i in range(1, len(route)-1, 2)`), with no
equal-point skip. -/
def interLegs (O : Oracles) : List Point → ℚ
  | _ :: d :: p :: rest => O.dist d p + interLegs O (p :: rest)
  | _ => 0

/-- The full dead-km recomputation in `assign_booking_to_vehicle`
(home to first pickup plus every drop-to-next-pickup leg; the final
return-home leg is not included). -/
def deadKmOpen (O : Oracles) (home : Point) : List Point → ℚ
  | [] => 0
  | p0 :: rest => O.dist home p0 + interLegs O (p0 :: rest)

/-- `assign_booking_to_vehicle`: append the booking to the route, move the
vehicle to the drop, advance the clock (wait for the pickup time if early,
then ride time -- `booking.get("travel_time", 0)` -- plus the 30-minute
service buffer), accumulate active km, recompute the open-form dead km,
refresh the hex, and accumulate driver pay. -/
def assign_booking_to_vehicle (O : Oracles) (b : Booking) (v : VehicleState) : VehicleState :=
  let travel_to_pickup := O.dist v.current b.pickup
  let route2 := v.route ++ [b.pickup, b.drop]
  let active_time := b.travel_time.getD 0
  let earliest_arrival := v.available_time + calculate_travel_time travel_to_pickup
  let actual_start := max earliest_arrival b.pickup_min
  { v with
    route := route2
    assigned_bookings := v.assigned_bookings ++ [b.booking_id]
    current := b.drop
    available_time := actual_start + active_time + 30
    active_km := v.active_km + b.distance_km
    dead_km := deadKmOpen O v.home route2
    h3_hex := O.latlngToH3 b.drop
    total_driver_pay := v.total_driver_pay
      + b.distance_km * activePayGet v.vclass + travel_to_pickup * deadPayGet v.vclass }

/-- The drop-to-next-pickup legs of `_calculate_ddm` (`service.py`), which do
skip a leg whose two endpoints are equal. -/
def ddmInterLegs (O : Oracles) : List Point → ℚ
  | _ :: d :: p :: rest => (if d = p then 0 else O.dist d p) + ddmInterLegs O (p :: rest)
  | _ => 0

/-- `_calculate_ddm` (`service.py`): closed-form dead km of a waypoint list
against a home anchor (home to first pickup, inter-booking legs, last drop
back home), skipping degenerate legs, and 0 for routes shorter than 2. -/
def calculate_ddm (O : Oracles) (route : List Point) (home : Point) : ℚ :=
  match route with
  | [] => 0
  | [_] => 0
  | p0 :: rest =>
    (if p0 = home then 0 else O.dist home p0)
    + ddmInterLegs O (p0 :: rest)
    + (if rest.getLastD p0 = home then 0 else O.dist (rest.getLastD p0) home)

/-- The `1e-6` coordinate tolerance of `_calculate_active_km`. -/
def near (x y : ℚ) : Bool := decide (|x - y| < 1 / 1000000)

/-- The booking-lookup predicate of `_calculate_active_km`. -/
def bookingMatches (b : Booking) (p d : Point) : Bool :=
  near b.pickup.lat p.lat && near b.pickup.lng p.lng
    && near b.drop.lat d.lat && near b.drop.lng d.lng

/-- `_calculate_active_km` (`service.py`): for each pickup/drop pair of the
route, the `distance_km` of the first booking matching both endpoints to
`1e-6`, falling back to the estimated distance when no booking matches. -/
def calculate_active_km (O : Oracles) : List Point → List Booking → ℚ
  | p :: d :: rest, bookings =>
    (match bookings.find? (fun b => bookingMatches b p d) with
     | some b => b.distance_km
     | none => O.dist p d) + calculate_active_km O rest bookings
  | _, _ => 0

/-- The per-vehicle feasibility conjunction of `get_suitable_vehicles`:
not routed, exact class match, and time availability. -/
def suitableBasic (O : Oracles) (b : Booking) (v : VehicleState) : Bool :=
  !v.is_routed && (v.vclass == b.vclass) && is_vehicle_available_for_booking O v b

/-- One radius step of the expanding-ring search in `get_suitable_vehicles`:
radius 0 compares hexes directly; a positive radius uses `h3.grid_ring`, and
falls back to the `get_h3_distance(...) / 0.5 ≤ radius` test when the ring
is unavailable or empty (Python treats an empty ring list as falsy). -/
def suitableAtRadius (O : Oracles) (b : Booking) (bhex : ℕ)
    (ivs : List (ℕ × VehicleState)) (r : ℕ) : List (ℕ × VehicleState) :=
  if r = 0 then
    ivs.filter (fun iv => suitableBasic O b iv.2 && (iv.2.h3_hex == some bhex))
  else
    if ((O.gridRing bhex r).getD []).isEmpty then
      ivs.filter (fun iv => suitableBasic O b iv.2 &&
        decide (O.h3Dist (some bhex) iv.2.h3_hex / (1/2 : ℚ) ≤ (r : ℚ)))
    else
      ivs.filter (fun iv => suitableBasic O b iv.2 &&
        (match iv.2.h3_hex with
         | some h => ((O.gridRing bhex r).getD []).contains h
         | none => false))

/-- The expanding loop of `get_suitable_vehicles`: return the candidates of
the first radius at which any are found. -/
def searchFrom (O : Oracles) (b : Booking) (bhex : ℕ)
    (ivs : List (ℕ × VehicleState)) : ℕ → ℕ → List (ℕ × VehicleState)
  | _, 0 => []
  | r, fuel+1 =>
    if (suitableAtRadius O b bhex ivs r).isEmpty then searchFrom O b bhex ivs (r+1) fuel
    else suitableAtRadius O b bhex ivs r

/-- `get_suitable_vehicles`: expanding-ring search up to radius 20 around the
booking's pickup hex, or a plain linear scan when the hex conversion fails.
Vehicles are returned together with their index in `self.vehicles`. -/
def get_suitable_vehicles (O : Oracles) (vehicles : List VehicleState) (b : Booking) :
    List (ℕ × VehicleState) :=
  let ivs := vehicles.enum
  match O.latlngToH3 b.pickup with
  | none => ivs.filter (fun iv => suitableBasic O b iv.2)
  | some bhex => searchFrom O b bhex ivs 0 21

/-- The per-candidate checks of `find_ending_booking` shared by both passes:
unassigned, time-available, class-compatible (same class or vehicle one class
higher), and pickup at least `min_time_gap_required = 180` minutes after the
vehicle's available time. -/
def endingQualifies (O : Oracles) (v : VehicleState) (assigned : List ℕ) (b : Booking) : Bool :=
  !(assigned.contains b.booking_id) &&
  is_vehicle_available_for_booking O v b &&
  ((v.vclass == b.vclass) || (v.vclass == b.vclass + 1)) &&
  decide (180 ≤ b.pickup_min - v.available_time)

/-- The running-minimum update shared by every `if score < best_score`
tracker of the source (`min_distance_to_home`, `best_difference`): with no
previous best the new entry wins; otherwise it wins only with a strictly
smaller score, so the earlier of two equal scores is kept, as in Python. -/
def betterScored {α : Type} (x : α × ℚ) : Option (α × ℚ) → Option (α × ℚ)
  | none => some x
  | some y => if x.2 < y.2 then some x else some y

/-- The strict first pass of `find_ending_booking`: only drops within 5 km of
home are considered, a drop within 3 km is taken immediately (`break`), and
otherwise the scan keeps the minimiser. -/
def endingStrictPass (O : Oracles) (v : VehicleState) (assigned : List ℕ) :
    List Booking → Option (Booking × ℚ) → Option Booking
  | [], best => best.map (fun x => x.1)
  | b :: rest, best =>
    if endingQualifies O v assigned b then
      if O.dist b.drop v.home ≤ 5 then
        if O.dist b.drop v.home ≤ 3 then some b
        else endingStrictPass O v assigned rest (betterScored (b, O.dist b.drop v.home) best)
      else endingStrictPass O v assigned rest best
    else endingStrictPass O v assigned rest best

/-- The fallback pass of `find_ending_booking`: same checks with the relaxed
15 km bound and no early exit. -/
def endingFallbackPass (O : Oracles) (v : VehicleState) (assigned : List ℕ) :
    List Booking → Option (Booking × ℚ) → Option Booking
  | [], best => best.map (fun x => x.1)
  | b :: rest, best =>
    if endingQualifies O v assigned b then
      if O.dist b.drop v.home ≤ 15 then
        endingFallbackPass O v assigned rest (betterScored (b, O.dist b.drop v.home) best)
      else endingFallbackPass O v assigned rest best
    else endingFallbackPass O v assigned rest best

/-- `find_ending_booking`: strict 5 km pass over the descending list, then the
15 km fallback pass when the strict pass finds nothing. -/
def find_ending_booking (O : Oracles) (v : VehicleState) (descending : List Booking)
    (assigned : List ℕ) : Option Booking :=
  match endingStrictPass O v assigned descending none with
  | some b => some b
  | none => endingFallbackPass O v assigned descending none

/-- The time-window/class filter building `candidate_bookings` in
`find_middle_bookings` (`current_time <= pickup < ending pickup`, measured
against the vehicle's available time at entry). -/
def middleWindowFilter (v : VehicleState) (ending : Booking) (assigned : List ℕ)
    (b : Booking) : Bool :=
  !(assigned.contains b.booking_id) &&
  !(b.booking_id == ending.booking_id) &&
  (decide (v.available_time ≤ b.pickup_min) && decide (b.pickup_min < ending.pickup_min)) &&
  ((v.vclass == b.vclass) || (v.vclass == b.vclass + 1))

/-- Stable-by-pickup-time insertion, used to model Python's stable
`list.sort(key=pickup minutes)`. -/
def insertByPickup (b : Booking) : List Booking → List Booking
  | [] => [b]
  | x :: xs => if x.pickup_min < b.pickup_min then x :: insertByPickup b xs else b :: x :: xs

/-- Stable sort of a booking list in ascending pickup-minute order, modelling
`sorted(bookings, key=...)` / `list.sort(key=...)`. -/
def sortByPickup (l : List Booking) : List Booking := l.foldr insertByPickup []

/-- The rolling `temp_vehicle_state` of `find_middle_bookings`. -/
structure TempState where
  current : Point
  available_time : ℚ
  route : List Point
deriving DecidableEq, Inhabited

/-- The feasibility-and-score computation for one middle candidate inside a
round of `find_middle_bookings`: reachability with the 60-minute grace, the
ending booking still reachable afterwards (ride time defaults to 30 here),
and the dead-vs-active comparison of the hypothetical route; returns the
score `dead - active` when the candidate passes every check. -/
def middleCheck (O : Oracles) (home : Point) (ending : Booking) (allB : List Booking)
    (tempAssigned : List ℕ) (ts : TempState) (b : Booking) : Option ℚ :=
  let earliest_arrival := ts.available_time + calculate_travel_time (O.dist ts.current b.pickup)
  if earliest_arrival ≤ b.pickup_min + 60 then
    let active_time := b.travel_time.getD 30
    let booking_end_time := max earliest_arrival b.pickup_min + active_time + 30
    let time_to_ending := calculate_travel_time (O.dist b.drop ending.pickup)
    if booking_end_time + time_to_ending ≤ ending.pickup_min + 60 then
      let test_route := ts.route ++ [b.pickup, b.drop] ++ [ending.pickup, ending.drop]
      let test_dead := calculate_ddm O test_route home
      let test_active :=
        ((allB.filter (fun x => (b.booking_id :: tempAssigned).contains x.booking_id)).map
          (fun x => x.distance_km)).sum
      if test_dead ≤ test_active then some (test_dead - test_active) else none
    else none
  else none

/-- The inner `for i, booking in enumerate(candidate_bookings)` scan of one
round: the first candidate of strictly minimal score wins, together with its
index (used by the `pop`). -/
def bestMiddleScan (O : Oracles) (home : Point) (ending : Booking) (allB : List Booking)
    (tempAssigned : List ℕ) (ts : TempState) :
    List Booking → ℕ → Option ((ℕ × Booking) × ℚ) → Option ((ℕ × Booking) × ℚ)
  | [], _, best => best
  | b :: rest, i, best =>
    match middleCheck O home ending allB tempAssigned ts b with
    | none => bestMiddleScan O home ending allB tempAssigned ts rest (i+1) best
    | some diff =>
      bestMiddleScan O home ending allB tempAssigned ts rest (i+1)
        (betterScored ((i, b), diff) best)

/-- The `temp_vehicle_state` update after a middle booking is selected. -/
def middleAdvance (O : Oracles) (ts : TempState) (b : Booking) : TempState :=
  let earliest_arrival := ts.available_time + calculate_travel_time (O.dist ts.current b.pickup)
  let active_time := b.travel_time.getD 30
  { current := b.drop
    available_time := max earliest_arrival b.pickup_min + active_time + 30
    route := ts.route ++ [b.pickup, b.drop] }

/-- The selection loop of `find_middle_bookings` (`while len(middle_bookings) <
max_middle_bookings and candidate_bookings`), with `max_middle_bookings = 10`
as fuel; each round selects the best-scoring candidate, removes it from the
candidate list and advances the rolling state. -/
def middleLoop (O : Oracles) (home : Point) (ending : Booking) (allB : List Booking) :
    ℕ → TempState → List ℕ → List Booking → List Booking
  | 0, _, _, _ => []
  | fuel+1, ts, tempAssigned, cands =>
    if cands.isEmpty then []
    else
      match bestMiddleScan O home ending allB tempAssigned ts cands 0 none with
      | none => []
      | some ((i, b), _) =>
        b :: middleLoop O home ending allB fuel (middleAdvance O ts b)
              (b.booking_id :: tempAssigned) (cands.eraseIdx i)

/-- `find_middle_bookings`: build the time-window candidate list, sort it by
pickup time, and run up to 10 selection rounds from the vehicle's current
position and clock. -/
def find_middle_bookings (O : Oracles) (v : VehicleState) (ending : Booking)
    (available : List Booking) (assigned : List ℕ) (allB : List Booking) : List Booking :=
  let cands := sortByPickup (available.filter (middleWindowFilter v ending assigned))
  let ts : TempState := { current := v.current, available_time := v.available_time, route := v.route }
  middleLoop O v.home ending allB 10 ts (v.assigned_bookings ++ [ending.booking_id]) cands

/-- The repeated `vehicle.available_time = fresh pickup + travel_time + 30`
reset of `complete_vehicle_route` (no-ending and rejection paths), keyed on
the vehicle's first assigned booking looked up in `all_bookings`. -/
def freshResetAvailable (allB : List Booking) (v : VehicleState) : VehicleState :=
  match v.assigned_bookings with
  | [] => v
  | fid :: _ =>
    match allB.find? (fun b => b.booking_id == fid) with
    | some fb => { v with available_time := fb.pickup_min + fb.travel_time.getD 30 + 30 }
    | none => v

/-- The committing fold of `complete_vehicle_route` step 3 (middles assigned
in selection order); also returns the commit log, each entry pairing the
vehicle state just before the commit with the committed booking. -/
def commitList (O : Oracles) : VehicleState → List Booking → VehicleState × List (VehicleState × Booking)
  | v, [] => (v, [])
  | v, b :: rest =>
    let r := commitList O (assign_booking_to_vehicle O b v) rest
    (r.1, (v, b) :: r.2)

/-- The final-leg accounting of the accepting tail of
`complete_vehicle_route`: when the route is non-empty, add the return-home
leg to dead km and dead-km pay. -/
def acceptTailFinal (O : Oracles) (v1 : VehicleState) : VehicleState :=
  if v1.route.isEmpty then v1
  else
    { v1 with dead_km := v1.dead_km + O.dist v1.current v1.home
              total_driver_pay := v1.total_driver_pay
                + O.dist v1.current v1.home * deadPayGet v1.vclass }

/-- The accepting tail of `complete_vehicle_route` (steps after the gate):
mark the vehicle routed when extra bookings were assigned, then add the final
return-home leg via `acceptTailFinal`. -/
def acceptTail (O : Oracles) (v : VehicleState) (ids : List ℕ) : VehicleState :=
  if ids.isEmpty && v.assigned_bookings.isEmpty then v
  else acceptTailFinal O (if ids.isEmpty then v else { v with is_routed := true })

/-- Steps 5–6 of `complete_vehicle_route`, applied to the vehicle `v2` that
already carries the middles and the ending: compute the final return-home
leg, the efficiency `active / (active + dead + final)·100`, and either accept
(mark routed, add the final leg) or reject (restore the entry snapshot `v`,
reset the clock past the first assigned booking, stay unrouted).  The
efficiency check is skipped when the route is empty, as in the source. -/
def completeGate (O : Oracles) (v : VehicleState) (allB : List Booking)
    (v2 : VehicleState) (ids : List ℕ) (clog : List (VehicleState × Booking)) :
    VehicleState × List ℕ × List (VehicleState × Booking) :=
  if v2.route.isEmpty then
    (acceptTail O v2 ids, ids, clog)
  else
    if (if 0 < v2.active_km + (v2.dead_km + O.dist v2.current v2.home)
        then v2.active_km / (v2.active_km + (v2.dead_km + O.dist v2.current v2.home)) * 100
        else 0) < 55 then
      ({ freshResetAvailable allB v with is_routed := false }, [], clog)
    else if 20 < O.dist v2.current v2.home then
      ({ freshResetAvailable allB v with is_routed := false }, [], clog)
    else
      (acceptTail O v2 ids, ids, clog)

/-- `complete_vehicle_route`: find an ending booking, select and commit middle
bookings then the ending, and apply the efficiency gate (minimum 55%
efficiency and final home leg at most 20 km); on rejection or when no ending
exists, restore the entry snapshot, reset the clock past the first assigned
booking and leave the vehicle unrouted.  Returns the updated vehicle, the ids
assigned by this call, and the commit log. -/
def complete_vehicle_route (O : Oracles) (v : VehicleState)
    (available descending allB : List Booking) (globalAssigned : List ℕ) :
    VehicleState × List ℕ × List (VehicleState × Booking) :=
  match find_ending_booking O v descending globalAssigned with
  | none =>
    ({ freshResetAvailable allB v with is_routed := false }, [], [])
  | some ending =>
    let middles := find_middle_bookings O v ending available globalAssigned allB
    let cm := commitList O v middles
    completeGate O v allB (assign_booking_to_vehicle O ending cm.1)
      (middles.map (fun m => m.booking_id) ++ [ending.booking_id])
      (cm.2 ++ [(cm.1, ending)])

/-- The first-strict-minimum selection of the best candidate vehicle in
`process_bookings_home_oriented` (score `ddm - active_km` of the route with
the booking appended, computed against the vehicle's home and the full
booking table). -/
def bestVehicleScan (O : Oracles) (allB : List Booking) (b : Booking) :
    List (ℕ × VehicleState) → Option ((ℕ × VehicleState) × ℚ) → Option ((ℕ × VehicleState) × ℚ)
  | [], best => best
  | iv :: rest, best =>
    bestVehicleScan O allB b rest
      (betterScored (iv, calculate_ddm O (iv.2.route ++ [b.pickup, b.drop]) iv.2.home
        - calculate_active_km O (iv.2.route ++ [b.pickup, b.drop]) allB) best)

/-- The candidate-vehicle selection wrapper (`best_vehicle` in both the
primary and the one-class-higher branch). -/
def bestVehicle (O : Oracles) (allB : List Booking) (b : Booking)
    (l : List (ℕ × VehicleState)) : Option (ℕ × VehicleState) :=
  (bestVehicleScan O allB b l none).map (fun x => x.1)

/-- The running state of the batch-planner loop: the vehicle array, the
`assigned_booking_ids` set, a log of every `assign_booking_to_vehicle` call
(vehicle state before the commit, committed booking), and a log of every
`get_suitable_vehicles` query made for a fresh booking (booking id, queried
class, whether any candidate was found). -/
structure PState where
  vehicles : List VehicleState
  assigned_ids : List ℕ
  log : List (VehicleState × Booking)
  attempts : List (ℕ × ℕ × Bool)
deriving Inhabited

/-- The post-completion clock touch-up of `process_bookings_home_oriented`
(lines 978–987 and 1040–1049): when the completion assigned nothing and the
vehicle still holds bookings without being routed, re-arm it by setting its
clock to the end of the current fresh booking (ride time defaulting to 30
here). -/
def commitTouchUp (b : Booking) (w : VehicleState) : VehicleState :=
  if !w.is_routed && !w.assigned_bookings.isEmpty && !w.route.isEmpty then
    { w with available_time := b.pickup_min + b.travel_time.getD 30 + 30 }
  else w

/-- Folding a completed route back into the planner state: record the fresh
id (and the completion's extra ids when any), store the updated vehicle at
its index, and extend the commit log. -/
def commitResult (st : PState) (b : Booking) (i : ℕ) (v : VehicleState)
    (r : VehicleState × List ℕ × List (VehicleState × Booking)) : PState :=
  if r.2.1.isEmpty then
    { vehicles := st.vehicles.set i (commitTouchUp b r.1)
      assigned_ids := st.assigned_ids ++ [b.booking_id]
      log := st.log ++ (v, b) :: r.2.2
      attempts := st.attempts }
  else
    { vehicles := st.vehicles.set i r.1
      assigned_ids := (st.assigned_ids ++ [b.booking_id]) ++ r.2.1
      log := st.log ++ (v, b) :: r.2.2
      attempts := st.attempts }

/-- The shared commit-and-complete tail of both fresh-assignment branches of
`process_bookings_home_oriented`: assign the fresh booking to the chosen
vehicle, run `complete_vehicle_route` over the not-yet-assigned bookings,
and fold the outcome back into the state. -/
def commitFreshAndComplete (O : Oracles) (allB descending : List Booking)
    (st : PState) (b : Booking) (i : ℕ) (v : VehicleState) : PState :=
  commitResult st b i v
    (complete_vehicle_route O (assign_booking_to_vehicle O b v)
      (allB.filter (fun x => !((st.assigned_ids ++ [b.booking_id]).contains x.booking_id)))
      descending allB (st.assigned_ids ++ [b.booking_id]))

/-- Append one `(booking_id, class, found)` query record. -/
def recordAttempt (st : PState) (e : ℕ × ℕ × Bool) : PState :=
  { st with attempts := st.attempts ++ [e] }

/-- Candidate selection over an already-computed suitable list: commit to the
best-scoring vehicle if one exists. -/
def processCommit (O : Oracles) (allB descending : List Booking) (st : PState)
    (b : Booking) (suitable : List (ℕ × VehicleState)) : PState :=
  match bestVehicle O allB b suitable with
  | some iv => commitFreshAndComplete O allB descending st b iv.1 iv.2
  | none => st

/-- The one-class-higher retry of the fresh loop: query candidates for the
booking with its class raised by one, record the attempt, and commit to the
best candidate (the score and the committed booking use the original
booking). -/
def processUpgrade (O : Oracles) (allB descending : List Booking) (st : PState)
    (b : Booking) : PState :=
  processCommit O allB descending
    (recordAttempt st (b.booking_id, b.vclass + 1,
      !(get_suitable_vehicles O st.vehicles { b with vclass := b.vclass + 1 }).isEmpty)) b
    (get_suitable_vehicles O st.vehicles { b with vclass := b.vclass + 1 })

/-- One iteration of the main loop of `process_bookings_home_oriented` over a
fresh booking: skip it if already assigned, otherwise search candidates of
its own class, and if none exist and the class is below 9 retry once with the
class raised by one. -/
def processBooking (O : Oracles) (allB descending : List Booking)
    (st : PState) (b : Booking) : PState :=
  if st.assigned_ids.contains b.booking_id then st
  else
    if (get_suitable_vehicles O st.vehicles b).isEmpty then
      if b.vclass < 9 then
        processUpgrade O allB descending
          (recordAttempt st (b.booking_id, b.vclass, false)) b
      else recordAttempt st (b.booking_id, b.vclass, false)
    else
      processCommit O allB descending
        (recordAttempt st (b.booking_id, b.vclass, true)) b
        (get_suitable_vehicles O st.vehicles b)

/-- The finalisation pass of `process_bookings_home_oriented`: every vehicle
with assignments but no committed route gets its final return-home leg added
to dead km and pay and is marked routed. -/
def finalizeVehicle (O : Oracles) (v : VehicleState) : VehicleState :=
  if v.assigned_bookings.isEmpty || v.is_routed then v
  else
    let v1 :=
      if v.route.isEmpty then v
      else
        let fd := O.dist v.current v.home
        { v with dead_km := v.dead_km + fd
                 total_driver_pay := v.total_driver_pay + fd * deadPayGet v.vclass }
    { v1 with is_routed := true }

/-- The output of a batch-planner run. -/
structure PResult where
  vehicles : List VehicleState
  unassigned_bookings : List Booking
  log : List (VehicleState × Booking)
  attempts : List (ℕ × ℕ × Bool)

/-- `process_bookings_home_oriented`: sort the bookings ascending by pickup
minute, drive the fresh-booking loop over them (with the reversed list as the
descending ending-search order), finalise the leftover vehicles, and collect
the unassigned bookings. -/
def process_bookings_home_oriented (O : Oracles) (vehicles : List VehicleState)
    (bookings : List Booking) : PResult :=
  let ascending := sortByPickup bookings
  let descending := ascending.reverse
  let st0 : PState := { vehicles := vehicles, assigned_ids := [], log := [], attempts := [] }
  let stF := ascending.foldl (processBooking O bookings descending) st0
  { vehicles := stF.vehicles.map (finalizeVehicle O)
    unassigned_bookings := bookings.filter (fun b => !(stF.assigned_ids.contains b.booking_id))
    log := stF.log
    attempts := stF.attempts }

/-- The booking ids held by the fleet: the concatenation of every vehicle's
`assigned_bookings` list. -/
def vehIds (vs : List VehicleState) : List ℕ :=
  (vs.map (fun v => v.assigned_bookings)).flatten

/-- The candidate-search attempts recorded for one booking id (each entry is
a `(booking_id, queried class, found)` triple). -/
def attemptsFor (l : List (ℕ × ℕ × Bool)) (i : ℕ) : List (ℕ × ℕ × Bool) :=
  l.filter (fun e => e.1 == i)

/-- Whether the last candidate query recorded for a booking failed (found no
vehicle). -/
def failedFinal (l : List (ℕ × ℕ × Bool)) : Bool :=
  match l.getLast? with
  | some e => !e.2.2
  | none => false

/-- The possible shapes of the attempt record of one booking: untried (it was
already assigned when its turn came), found at its own class, failed at its
own class and retried exactly once at the next class (only when the class is
below 9), or failed at class ≥ 9 with no retry. -/
def ShapeOK (b : Booking) (A : List (ℕ × ℕ × Bool)) : Prop :=
  A = []
  ∨ A = [(b.booking_id, b.vclass, true)]
  ∨ (b.vclass < 9 ∧ ∃ r, A = [(b.booking_id, b.vclass, false),
      (b.booking_id, b.vclass + 1, r)])
  ∨ (¬ b.vclass < 9 ∧ A = [(b.booking_id, b.vclass, false)])

/-- The commit-time feasibility bound of one commit-log entry: the vehicle
state recorded just before the commit could reach the committed booking's
pickup within the 60-minute grace window. -/
def logFeasible (O : Oracles) (p : VehicleState × Booking) : Prop :=
  p.1.available_time + calculate_travel_time (O.dist p.1.current p.2.pickup)
    ≤ p.2.pickup_min + 60

/-- `initialize_vehicles` for a single record: start at home at 6:00 AM
(360 minutes) with everything empty. -/
def initialize_vehicle (O : Oracles) (vid : ℕ) (home : Point) (c : ℕ) : VehicleState :=
  { vehicle_id := vid
    home := home
    current := home
    vclass := c
    route := []
    assigned_bookings := []
    active_km := 0
    dead_km := 0
    available_time := 360
    h3_hex := O.latlngToH3 home
    total_driver_pay := 0
    is_routed := false }

end Dispatch

namespace RateTables

/-!
The stringly-keyed rate dictionaries and their `dict.get` fallbacks, embedded
verbatim so the fallback value of every lookup site can be inspected for
unknown class tags.  Keys are the raw `vehicle_type` strings.
-/

/-- The `active_driver_pay` dictionary of `HomeOrientedBookingAssigner`. -/
def activeDriverPayTable : List (String × ℚ) :=
  [("class1", 16), ("class2", 20), ("class3", 22), ("class4", 26), ("class5", 32),
   ("class6", 40), ("class7", 50), ("class8", 60), ("class9", 70)]

/-- The `dead_driver_pay` dictionary of `HomeOrientedBookingAssigner`. -/
def deadDriverPayTable : List (String × ℚ) :=
  [("class1", 10), ("class2", 15), ("class3", 18), ("class4", 22), ("class5", 28),
   ("class6", 32), ("class7", 40), ("class8", 50), ("class9", 60)]

/-- The `customer_price_per_km` dictionary. -/
def customerPriceTable : List (String × ℚ) :=
  [("class1", 20), ("class2", 24), ("class3", 28), ("class4", 32), ("class5", 40),
   ("class6", 50), ("class7", 60), ("class8", 70), ("class9", 80)]

/-- The `dead_km_percentage` dictionary. -/
def deadKmPercentageTable : List (String × ℚ) :=
  [("class1", 4/10), ("class2", 4/10), ("class3", 4/10), ("class4", 4/10), ("class5", 4/10),
   ("class6", 3/10), ("class7", 3/10), ("class8", 25/100), ("class9", 25/100)]

/-- Python `dict.get(key, default)` over an association list. -/
def dictGet (table : List (String × ℚ)) (key : String) (dflt : ℚ) : ℚ :=
  match table.find? (fun kv => kv.1 == key) with
  | some kv => kv.2
  | none => dflt

/-- `self.active_driver_pay.get(vehicle_type, 16)` — `assign_booking_to_vehicle`. -/
def assignActivePay (t : String) : ℚ := dictGet activeDriverPayTable t 16

/-- `self.dead_driver_pay.get(vehicle_type, 10)` — `assign_booking_to_vehicle`,
`complete_vehicle_route` and the finalisation loop. -/
def assignDeadPay (t : String) : ℚ := dictGet deadDriverPayTable t 10

/-- `self.customer_price_per_km.get(vehicle_type, 20)` — fare computation in
`calculate_final_metrics` and the report printers. -/
def farePricePerKm (t : String) : ℚ := dictGet customerPriceTable t 20

/-- `self.dead_km_percentage.get(vehicle_type, 0.40)` — fare computation. -/
def fareDeadKmFactor (t : String) : ℚ := dictGet deadKmPercentageTable t (4/10)

/-- `self.active_driver_pay.get(vehicle_type, 20)` — `assign_route_to_vehicle`
(line 899 of `home_oriented_main.py`). -/
def assignRouteActivePay (t : String) : ℚ := dictGet activeDriverPayTable t 20

/-- `self.dead_driver_pay.get(vehicle_type, 15)` — `assign_route_to_vehicle`
(line 900 of `home_oriented_main.py`). -/
def assignRouteDeadPay (t : String) : ℚ := dictGet deadDriverPayTable t 15

/-- `_get_active_driver_pay_rate` of `instant_simple.py`: its local `rates`
dict equals `activeDriverPayTable`, and the fallback is `rates.get(t, 20)`. -/
def simpleActivePayRate (t : String) : ℚ := dictGet activeDriverPayTable t 20

/-- `_get_dead_driver_pay_rate` of `instant_simple.py`: its local `rates`
dict equals `deadDriverPayTable`, with fallback `rates.get(t, 15)`. -/
def simpleDeadPayRate (t : String) : ℚ := dictGet deadDriverPayTable t 15

end RateTables

namespace Simulator

open Dispatch

/-!
The booking-locking steps of the two real-time simulators.
-/

/-- The state read by `update_locked_bookings` in
`SimpleRealTimeDispatchSimulator` (`instant_simple.py`): the simulated clock,
the combined booking list (scheduled bookings plus every instant booking
admitted so far — `run_simulation` appends newly loaded instant bookings to
`total_bookings`), and the current locked-id set. -/
structure SimpleSimState where
  current_sim_time : ℚ
  total_bookings : List Booking
  locked_booking_ids : List ℕ

/-- `update_locked_bookings` (`instant_simple.py` lines 238–248): clear the
locked set, then lock every booking of `total_bookings` whose pickup time is
at most two hours ahead of the simulated clock.  No distinction is made
between scheduled and instant bookings. -/
def update_locked_bookings (st : SimpleSimState) : SimpleSimState :=
  { st with locked_booking_ids :=
      ((st.total_bookings.filter
        (fun b => decide (b.pickup_min ≤ st.current_sim_time + 120))).map
        (fun b => b.booking_id)) }

/-- The state read by `update_locked_assignments` in
`RealTimeDispatchSimulator` (`instant.py`): clock, the scheduled and the
loaded instant bookings, the assigner's vehicles, and the locked set. -/
structure InstantSimState where
  current_sim_time : ℚ
  scheduled_bookings : List Booking
  loaded_instant_bookings : List Booking
  vehicles : List VehicleState
  locked_bookings : List ℕ

/-- `_get_booking_pickup_time`: look the id up among the loaded instant
bookings first, then among the scheduled ones. -/
def get_booking_pickup_time (st : InstantSimState) (bid : ℕ) : Option ℚ :=
  match st.loaded_instant_bookings.find? (fun b => b.booking_id == bid) with
  | some b => some b.pickup_min
  | none =>
    match st.scheduled_bookings.find? (fun b => b.booking_id == bid) with
    | some b => some b.pickup_min
    | none => none

/-- `_get_booking_completion_time`: pickup time plus the booking's ride time
(default 30) plus the 30-minute service buffer. -/
def get_booking_completion_time (st : InstantSimState) (bid : ℕ) : Option ℚ :=
  match st.loaded_instant_bookings.find? (fun b => b.booking_id == bid) with
  | some b => some (b.pickup_min + b.travel_time.getD 30 + 30)
  | none =>
    match st.scheduled_bookings.find? (fun b => b.booking_id == bid) with
    | some b => some (b.pickup_min + b.travel_time.getD 30 + 30)
    | none => none

/-- The per-booking lock test of `update_locked_assignments`
(`if pickup_time and (pickup_time <= self.current_sim_time or pickup_time <=
lock_window)`); note Python's truthiness makes a pickup time of exactly 0
falsy. -/
def lockTest (st : InstantSimState) (window : ℚ) (bid : ℕ) : Bool :=
  match get_booking_pickup_time st bid with
  | some p => !(p == 0) && (decide (p ≤ st.current_sim_time) || decide (p ≤ window))
  | none => false

/-- `update_locked_assignments` (`instant.py` lines 149–193): clear the locked
set; for every vehicle, lock each of its assigned bookings whose pickup time
is in the past or within the two-hour window, and move the vehicle's
available time to the latest completion time among its locked bookings
(defaulting to the current simulated time). -/
def update_locked_assignments (st : InstantSimState) : InstantSimState :=
  let window := st.current_sim_time + 120
  let perVehicle := st.vehicles.map (fun v =>
    let vlocked := v.assigned_bookings.filter (lockTest st window)
    let completion := vlocked.foldl
      (fun t bid =>
        match get_booking_completion_time st bid with
        | some ct => max t ct
        | none => t) st.current_sim_time
    (vlocked, { v with available_time := completion }))
  { st with
    locked_bookings := (perVehicle.map (fun x => x.1)).flatten
    vehicles := perVehicle.map (fun x => x.2) }

end Simulator

namespace Geo

/-!
The real distance estimator `get_distance` of `Helper_func.py`, embedded over
`ℝ`.  `math.sqrt` raises for a negative argument and the surrounding
`try/except` then returns `0.0`; this is modelled by the guard on `a`.
`round(x, 2)` is modelled by rounding `100 * x` to an integer.
-/

/-- `math.radians`. -/
noncomputable def radians (x : ℝ) : ℝ := x * Real.pi / 180

/-- `math.atan2` (four-quadrant arctangent). -/
noncomputable def atan2 (y x : ℝ) : ℝ :=
  if 0 < x then Real.arctan (y / x)
  else if x < 0 then
    (if 0 ≤ y then Real.arctan (y / x) + Real.pi else Real.arctan (y / x) - Real.pi)
  else
    (if 0 < y then Real.pi / 2 else if y < 0 then -(Real.pi / 2) else 0)

/-- `round(x, 2)`. -/
noncomputable def round2 (x : ℝ) : ℝ := (round (x * 100) : ℤ) / 100

/-- The haversine intermediate
`a = sin²(Δlat/2) + cos(lat1)·cos(lat2)·sin²(Δlng/2)` for the two points. -/
noncomputable def haversineA (p q : ℝ × ℝ) : ℝ :=
  Real.sin (radians (q.1 - p.1) / 2) ^ 2
    + Real.cos (radians p.1) * Real.cos (radians q.1) * Real.sin (radians (q.2 - p.2) / 2) ^ 2

/-- `get_distance(point1, point2)` with the default road factor
`Config.DISTANCE_FACTOR = 1.3`: haversine great-circle distance on the
6371 km sphere, scaled by 1.3 and rounded to two decimals; any `math` domain
error (negative square-root argument) is caught and yields `0.0`. -/
noncomputable def get_distance (p q : ℝ × ℝ) : ℝ :=
  if haversineA p q < 0 ∨ 1 < haversineA p q then 0
  else round2 (6371 * (2 * atan2 (Real.sqrt (haversineA p q))
    (Real.sqrt (1 - haversineA p q))) * (13 / 10))

end Geo

namespace Examples

open Dispatch Simulator

/-!
Concrete fleets, bookings and oracle instantiations used to evaluate the
embedding on explicit inputs (counterexamples and witnesses).  `uniformO`
makes every leg between distinct points 1 km long and disables the spatial
index (as when `latlng_to_h3` returns the empty id), so the planner takes the
linear-scan path.
-/

def H : Point := ⟨0, 0⟩
def pk1 : Point := ⟨1, 0⟩
def dr1 : Point := ⟨2, 0⟩
def pk2 : Point := ⟨3, 0⟩
def dr2 : Point := ⟨4, 0⟩
def pk3 : Point := ⟨7, 0⟩
def dr3 : Point := ⟨8, 0⟩
def pk4 : Point := ⟨9, 0⟩
def dr4 : Point := ⟨10, 0⟩
def pkE : Point := ⟨5, 0⟩
def drE : Point := ⟨6, 0⟩
def pk5 : Point := ⟨11, 0⟩
def dr25 : Point := ⟨12, 0⟩
def pk6 : Point := ⟨13, 0⟩
def dr15 : Point := ⟨14, 0⟩

/-- Oracle with unit distances between distinct points and no spatial index. -/
def uniformO : Oracles :=
  { dist := fun p q => if p = q then 0 else 1
    latlngToH3 := fun _ => none
    gridRing := fun _ _ => none
    h3Dist := fun _ _ => 0 }

/-- Oracle whose distances are 31 km between distinct points (forcing a late
arrival at the fresh pickup). -/
def farO : Oracles :=
  { dist := fun p q => if p = q then 0 else 31
    latlngToH3 := fun _ => none
    gridRing := fun _ _ => none
    h3Dist := fun _ _ => 0 }

/-- Oracle placing one candidate drop 2.5 km and another 1.5 km from home. -/
def endingO : Oracles :=
  { dist := fun p q =>
      if p = q then 0
      else if p = dr25 ∧ q = H then 5/2
      else if p = dr15 ∧ q = H then 3/2
      else 1
    latlngToH3 := fun _ => none
    gridRing := fun _ _ => none
    h3Dist := fun _ _ => 0 }

def bkA1 : Booking := ⟨1, pk1, dr1, 420, 1, 1, some 10⟩
def bkA2 : Booking := ⟨2, pk2, dr2, 430, 1, 1, some 10⟩
def vehA : VehicleState := initialize_vehicle uniformO 1 H 1

/-- The morning booking of the accepted-route scenario. -/
def bkB1 : Booking := ⟨1, pk1, dr1, 420, 1, 2, some 10⟩
/-- The evening booking of the accepted-route scenario, whose drop is 1 km
from home. -/
def bkBE : Booking := ⟨2, pkE, drE, 700, 1, 2, some 10⟩

/-- The fresh vehicle state after committing `bkA1` under `farO`,
as it stands when `complete_vehicle_route` is entered. -/
def vehFar : VehicleState := assign_booking_to_vehicle farO bkA1 (initialize_vehicle farO 1 H 1)

/-- A mid-run vehicle holding one fresh booking, positioned at its drop. -/
def vehMid : VehicleState :=
  { vehicle_id := 1, home := H, current := dr1, vclass := 1, route := [pk1, dr1]
    assigned_bookings := [1], active_km := 5, dead_km := 1, available_time := 460
    h3_hex := none, total_driver_pay := 0, is_routed := false }

def bkD1 : Booking := ⟨1, pk1, dr1, 420, 1, 5, some 10⟩
/-- Middle candidate whose pickup time equals the vehicle's available time. -/
def bkM1 : Booking := ⟨3, pk3, dr3, 460, 1, 5, some 10⟩
/-- Middle candidate whose pickup time lies below the rolling clock after the
first middle commit. -/
def bkM2 : Booking := ⟨4, pk4, dr4, 465, 1, 5, some 10⟩
def bkDE : Booking := ⟨2, pkE, drE, 700, 1, 5, some 10⟩

/-- Ending candidate whose drop is 2.5 km from home (under `endingO`). -/
def bkE25 : Booking := ⟨5, pk5, dr25, 700, 1, 2, some 10⟩
/-- Ending candidate whose drop is 1.5 km from home (under `endingO`). -/
def bkE15 : Booking := ⟨6, pk6, dr15, 690, 1, 2, some 10⟩

/-- A class-9 booking. -/
def bkC9 : Booking := ⟨9, pk1, dr1, 420, 9, 1, some 10⟩

/-- A scheduled booking with a far-away pickup time. -/
def bkSched : Booking := ⟨3, pk2, dr2, 800, 1, 1, some 10⟩
/-- An instant booking admitted at minute 420 whose pickup (minute 430) is
within the two-hour lock window. -/
def bkInst : Booking := ⟨7, pk1, dr1, 430, 1, 1, some 10⟩

/-- `instant_simple.py` simulator state at minute 420 with the instant
booking admitted into `total_bookings`. -/
def simpleSt : SimpleSimState := ⟨420, [bkSched, bkInst], []⟩

/-- A vehicle to which the instant booking `bkInst` has been assigned. -/
def vehLock : VehicleState :=
  { vehicle_id := 1, home := H, current := dr1, vclass := 1, route := [pk1, dr1]
    assigned_bookings := [7], active_km := 1, dead_km := 1, available_time := 500
    h3_hex := none, total_driver_pay := 0, is_routed := false }

/-- `instant.py` simulator state at minute 420, with `bkInst` loaded as an
instant booking and assigned to `vehLock`. -/
def instantSt : InstantSimState := ⟨420, [bkSched], [bkInst], [vehLock], []⟩

/-- The planner run in which both route completions of the single vehicle
fail (no ending booking has a 180-minute gap), so the vehicle ends the run
with two fresh bookings, finalised as routed with no efficiency check. -/
def runA : PResult := process_bookings_home_oriented uniformO [vehA] [bkA1, bkA2]

/-- The (single) final vehicle of `runA`. -/
def vA : VehicleState := runA.vehicles.headD default

/-- The planner run in which the route completion accepts (`bkB1` fresh,
`bkBE` ending 1 km from home, efficiency 4/7). -/
def runB : PResult := process_bookings_home_oriented uniformO [vehA] [bkB1, bkBE]

/-- The vehicle state after the fresh commit of `bkB1`, as passed to
`complete_vehicle_route` during `runB`. -/
def vehB1 : VehicleState := assign_booking_to_vehicle uniformO bkB1 vehA

/-- The route-completion call of `runB` (accepting). -/
def completeB : VehicleState × List ℕ × List (VehicleState × Booking) :=
  complete_vehicle_route uniformO vehB1 [bkBE] [bkBE, bkB1] [bkB1, bkBE] [1]

/-- The class-9 run with an empty fleet: the only booking finds no candidate
and no retry is made. -/
def runF : PResult := process_bookings_home_oriented uniformO [] [bkC9]

end Examples



/-! ## Theorems

The remainder of the file states and proves the verified properties, one
theorem per claim, with shared helper lemmas.
-/

namespace Geo

theorem haversineA_symm (p q : ℝ × ℝ) : haversineA p q = haversineA q p := by
  unfold haversineA
  have e1 : radians (q.1 - p.1) / 2 = -(radians (p.1 - q.1) / 2) := by unfold radians; ring
  have e2 : radians (q.2 - p.2) / 2 = -(radians (p.2 - q.2) / 2) := by unfold radians; ring
  rw [e1, e2, Real.sin_neg, Real.sin_neg]
  ring

theorem haversineA_self (p : ℝ × ℝ) : haversineA p p = 0 := by
  unfold haversineA radians
  simp [sub_self]

theorem atan2_nonneg {y x : ℝ} (hy : 0 ≤ y) (hx : 0 ≤ x) : 0 ≤ atan2 y x := by
  unfold atan2
  rcases lt_or_eq_of_le hx with h | h
  · rw [if_pos h]
    have hd : (0 : ℝ) ≤ y / x := div_nonneg hy (le_of_lt h)
    calc (0 : ℝ) = Real.arctan 0 := Real.arctan_zero.symm
      _ ≤ Real.arctan (y / x) := Real.arctan_strictMono.monotone hd
  · rw [if_neg (by rw [← h]; exact lt_irrefl 0), if_neg (by rw [← h]; exact lt_irrefl 0)]
    by_cases hy0 : 0 < y
    · rw [if_pos hy0]
      have := Real.pi_pos
      linarith
    · rw [if_neg hy0, if_neg (not_lt.mpr hy)]

theorem round2_nonneg {x : ℝ} (h : 0 ≤ x) : 0 ≤ round2 x := by
  unfold round2
  have h1 : (0 : ℤ) ≤ round (x * 100) := by
    rw [round_eq]
    exact Int.floor_nonneg.mpr (by linarith)
  have h2 : (0 : ℝ) ≤ ((round (x * 100) : ℤ) : ℝ) := by exact_mod_cast h1
  exact div_nonneg h2 (by norm_num)

theorem get_distance_symm (p q : ℝ × ℝ) : get_distance p q = get_distance q p := by
  unfold get_distance
  rw [haversineA_symm p q]

theorem get_distance_nonneg (p q : ℝ × ℝ) : 0 ≤ get_distance p q := by
  unfold get_distance
  split
  · exact le_refl 0
  · apply round2_nonneg
    have hc : 0 ≤ atan2 (Real.sqrt (haversineA p q)) (Real.sqrt (1 - haversineA p q)) :=
      atan2_nonneg (Real.sqrt_nonneg _) (Real.sqrt_nonneg _)
    nlinarith [hc]

theorem get_distance_self (p : ℝ × ℝ) : get_distance p p = 0 := by
  unfold get_distance
  rw [haversineA_self]
  norm_num [atan2, Real.sqrt_zero, Real.sqrt_one, Real.arctan_zero, round2]

end Geo

/-- C10: the distance estimator `get_distance` is symmetric and non-negative,
and vanishes on the diagonal: for all coordinate pairs `p` and `q`,
`get_distance p q = get_distance q p`, `0 ≤ get_distance p q` and
`get_distance p p = 0`; hence every dead-km leg may be computed in either
direction with an identical result. -/
theorem C10_get_distance_symm_nonneg (p q : ℝ × ℝ) :
    Geo.get_distance p q = Geo.get_distance q p
      ∧ 0 ≤ Geo.get_distance p q ∧ Geo.get_distance p p = 0 :=
  ⟨Geo.get_distance_symm p q, Geo.get_distance_nonneg p q, Geo.get_distance_self p⟩

/-- C9 counterexample: the tag `"classX"` is absent from the rate tables, and
the planner paths `assign_booking_to_vehicle` (16/10) do fall back to class1
rates, but `assign_route_to_vehicle` and the simulator's
`_get_active_driver_pay_rate` / `_get_dead_driver_pay_rate` fall back to 20
(active) and 15 (dead) — not to the class1 rates 16 and 10 — so the claim
fails on those lookup paths. -/
theorem C9_counterexample :
    RateTables.activeDriverPayTable.find? (fun kv => kv.1 == "classX") = none
    ∧ RateTables.deadDriverPayTable.find? (fun kv => kv.1 == "classX") = none
    ∧ RateTables.simpleActivePayRate "classX" = 20
    ∧ RateTables.simpleDeadPayRate "classX" = 15
    ∧ RateTables.assignRouteActivePay "classX" = 20
    ∧ RateTables.assignRouteDeadPay "classX" = 15
    ∧ ¬(RateTables.simpleActivePayRate "classX" = 16
        ∧ RateTables.simpleDeadPayRate "classX" = 10) := by
  have hfa : RateTables.activeDriverPayTable.find? (fun kv => kv.1 == "classX") = none := by
    decide
  have hfd : RateTables.deadDriverPayTable.find? (fun kv => kv.1 == "classX") = none := by
    decide
  refine ⟨hfa, hfd, ?_, ?_, ?_, ?_, ?_⟩ <;>
    norm_num [RateTables.simpleActivePayRate, RateTables.simpleDeadPayRate,
      RateTables.assignRouteActivePay, RateTables.assignRouteDeadPay, RateTables.dictGet,
      hfa, hfd]

/-- C9 (amended): a class tag missing from the rate tables is handled
silently with a default in every lookup path, but the defaults differ by
path: `assign_booking_to_vehicle`, route finalisation and fare computation
fall back to the class1 rates (active 16, dead 10, price 20, markup 0.40),
while `assign_route_to_vehicle` and the simulator pay helpers fall back to
20 (active) and 15 (dead). -/
theorem C9_rate_table_fallbacks (t : String)
    (h1 : RateTables.activeDriverPayTable.find? (fun kv => kv.1 == t) = none)
    (h2 : RateTables.deadDriverPayTable.find? (fun kv => kv.1 == t) = none)
    (h3 : RateTables.customerPriceTable.find? (fun kv => kv.1 == t) = none)
    (h4 : RateTables.deadKmPercentageTable.find? (fun kv => kv.1 == t) = none) :
    RateTables.assignActivePay t = 16
    ∧ RateTables.assignDeadPay t = 10
    ∧ RateTables.farePricePerKm t = 20
    ∧ RateTables.fareDeadKmFactor t = 4/10
    ∧ RateTables.assignRouteActivePay t = 20
    ∧ RateTables.assignRouteDeadPay t = 15
    ∧ RateTables.simpleActivePayRate t = 20
    ∧ RateTables.simpleDeadPayRate t = 15 := by
  simp [RateTables.assignActivePay, RateTables.assignDeadPay, RateTables.farePricePerKm,
    RateTables.fareDeadKmFactor, RateTables.assignRouteActivePay,
    RateTables.assignRouteDeadPay, RateTables.simpleActivePayRate,
    RateTables.simpleDeadPayRate, RateTables.dictGet, h1, h2, h3, h4]

/-- Witness for C9: the amended theorem applied at the unknown tag
`"classX"`. -/
theorem C9_rate_table_fallbacks_witness :
    RateTables.assignActivePay "classX" = 16
    ∧ RateTables.assignDeadPay "classX" = 10
    ∧ RateTables.farePricePerKm "classX" = 20
    ∧ RateTables.fareDeadKmFactor "classX" = 4/10
    ∧ RateTables.assignRouteActivePay "classX" = 20
    ∧ RateTables.assignRouteDeadPay "classX" = 15
    ∧ RateTables.simpleActivePayRate "classX" = 20
    ∧ RateTables.simpleDeadPayRate "classX" = 15 :=
  C9_rate_table_fallbacks "classX"
    (by decide) (by decide) (by decide) (by decide)

/-- C5 (code bug): at simulated minute 420 the admitted instant booking 7
(pickup minute 430, inside the two-hour window) is placed in the locked set
both by `update_locked_bookings` of `instant_simple.py` (which scans
`total_bookings` with no instant-booking exemption) and by
`update_locked_assignments` of `instant.py` (which locks every assigned
booking inside the window, including assigned instant bookings), although the
code's own comments state that instant bookings are never locked. -/
theorem C5_instant_booking_locked :
    7 ∈ (Simulator.update_locked_bookings Examples.simpleSt).locked_booking_ids
    ∧ 7 ∈ (Simulator.update_locked_assignments Examples.instantSt).locked_bookings := by
  constructor <;>
    norm_num [Simulator.update_locked_bookings, Simulator.update_locked_assignments,
      Simulator.lockTest, Simulator.get_booking_pickup_time,
      Simulator.get_booking_completion_time, Examples.simpleSt, Examples.instantSt,
      Examples.bkInst, Examples.bkSched, Examples.vehLock]

namespace Dispatch

/-! ### Lemmas about the ending-booking search -/

theorem endingStrictPass_early (O : Oracles) (v : VehicleState) (assigned : List ℕ) :
    ∀ (pre : List Booking) (b : Booking) (post : List Booking) (best : Option (Booking × ℚ)),
      (∀ x ∈ pre, ¬(endingQualifies O v assigned x = true ∧ O.dist x.drop v.home ≤ 3)) →
      endingQualifies O v assigned b = true → O.dist b.drop v.home ≤ 3 →
      endingStrictPass O v assigned (pre ++ b :: post) best = some b := by
  intro pre
  induction pre with
  | nil =>
    intro b post best _ hq hd
    rw [List.nil_append]
    unfold endingStrictPass
    rw [if_pos hq, if_pos (le_trans hd (by norm_num)), if_pos hd]
  | cons x pre ih =>
    intro b post best hpre hq hd
    have hx := hpre x (List.mem_cons_self x pre)
    have hrest : ∀ y ∈ pre, ¬(endingQualifies O v assigned y = true ∧ O.dist y.drop v.home ≤ 3) :=
      fun y hy => hpre y (List.mem_cons_of_mem x hy)
    rw [List.cons_append]
    unfold endingStrictPass
    by_cases hqx : endingQualifies O v assigned x = true
    · rw [if_pos hqx]
      have hdx : ¬(O.dist x.drop v.home ≤ 3) := fun hdx => hx ⟨hqx, hdx⟩
      by_cases h5 : O.dist x.drop v.home ≤ 5
      · rw [if_pos h5, if_neg hdx]
        exact ih b post _ hrest hq hd
      · rw [if_neg h5]
        exact ih b post best hrest hq hd
    · rw [if_neg hqx]
      exact ih b post best hrest hq hd

/-- C7 (amended): whenever the descending scan reaches a qualifying candidate
whose drop is within 3 km of home and no earlier candidate both qualifies and
lies within 3 km, that candidate is returned immediately by the early-exit,
whatever follows it in the list; in particular, of a 2.5 km and a 1.5 km
candidate, the one scanned first is chosen, not necessarily the 1.5 km one. -/
theorem C7_ending_early_exit (O : Oracles) (v : VehicleState) (assigned : List ℕ)
    (pre post : List Booking) (b : Booking)
    (hpre : ∀ x ∈ pre, ¬(endingQualifies O v assigned x = true ∧ O.dist x.drop v.home ≤ 3))
    (hq : endingQualifies O v assigned b = true)
    (hd : O.dist b.drop v.home ≤ 3) :
    find_ending_booking O v (pre ++ b :: post) assigned = some b := by
  unfold find_ending_booking
  rw [endingStrictPass_early O v assigned pre b post none hpre hq hd]

/-- Witness for C7: the early-exit theorem applied to the concrete descending
list `[bkE25, bkE15]`, whose head qualifies at 2.5 km. -/
theorem C7_ending_early_exit_witness :
    find_ending_booking Examples.endingO Examples.vehMid
      ([] ++ Examples.bkE25 :: [Examples.bkE15]) [1] = some Examples.bkE25 :=
  C7_ending_early_exit Examples.endingO Examples.vehMid [1] [] [Examples.bkE15]
    Examples.bkE25 (by simp)
    (by norm_num [endingQualifies, is_vehicle_available_for_booking, calculate_travel_time,
      Examples.endingO, Examples.vehMid, Examples.bkE25, Examples.H, Examples.pk5,
      Examples.dr25, Examples.dr1, Examples.dr15, Point.mk.injEq])
    (by norm_num [Examples.endingO, Examples.vehMid, Examples.bkE25, Examples.H,
      Examples.dr25, Examples.dr15, Point.mk.injEq])

/-- C7 counterexample: both candidates qualify, with drops 2.5 km and 1.5 km
from home, but the scan meets the 2.5 km candidate first and the ≤ 3 km
early-exit takes it, so the 1.5 km candidate is *not* selected. -/
theorem C7_counterexample :
    find_ending_booking Examples.endingO Examples.vehMid
        [Examples.bkE25, Examples.bkE15] [1] = some Examples.bkE25
    ∧ endingQualifies Examples.endingO Examples.vehMid [1] Examples.bkE15 = true
    ∧ Examples.endingO.dist Examples.bkE15.drop Examples.vehMid.home = 3/2
    ∧ Examples.endingO.dist Examples.bkE25.drop Examples.vehMid.home = 5/2
    ∧ Examples.bkE25 ≠ Examples.bkE15 := by
  refine ⟨?_, ?_, ?_, ?_, ?_⟩ <;>
    norm_num [find_ending_booking, endingStrictPass, endingFallbackPass, endingQualifies,
      is_vehicle_available_for_booking, calculate_travel_time, Examples.endingO,
      Examples.vehMid, Examples.bkE25, Examples.bkE15, Examples.H, Examples.pk5,
      Examples.pk6, Examples.dr25, Examples.dr15, Examples.dr1, Point.mk.injEq,
      Booking.mk.injEq]

end Dispatch

namespace Dispatch

/-! ### Lemmas about the running-minimum trackers and the sort -/

theorem betterScored_some {α : Type} {x : α × ℚ} {best : Option (α × ℚ)} {r : α × ℚ}
    (h : betterScored x best = some r) : r = x ∨ best = some r := by
  cases best with
  | none =>
    simp only [betterScored] at h
    exact Or.inl (Option.some.inj h).symm
  | some y =>
    simp only [betterScored] at h
    split at h
    · exact Or.inl (Option.some.inj h).symm
    · exact Or.inr h

theorem insertByPickup_perm (b : Booking) (l : List Booking) :
    (insertByPickup b l).Perm (b :: l) := by
  induction l with
  | nil => simp [insertByPickup]
  | cons x xs ih =>
    unfold insertByPickup
    split
    · exact (ih.cons x).trans (List.Perm.swap b x xs)
    · exact List.Perm.refl _

theorem sortByPickup_perm (l : List Booking) : (sortByPickup l).Perm l := by
  induction l with
  | nil => exact List.Perm.refl _
  | cons x xs ih =>
    have h1 : sortByPickup (x :: xs) = insertByPickup x (sortByPickup xs) := rfl
    rw [h1]
    exact (insertByPickup_perm x _).trans (ih.cons x)

theorem sortByPickup_mem {a : Booking} {l : List Booking} : a ∈ sortByPickup l ↔ a ∈ l :=
  (sortByPickup_perm l).mem_iff

/-! ### Lemmas about the middle-booking selection -/

theorem bestMiddleScan_some (O : Oracles) (home : Point) (ending : Booking)
    (allB : List Booking) (ta : List ℕ) (ts : TempState) :
    ∀ (l : List Booking) (i : ℕ) (best : Option ((ℕ × Booking) × ℚ)) (r : (ℕ × Booking) × ℚ),
      bestMiddleScan O home ending allB ta ts l i best = some r →
      best = some r ∨ ∃ k, r.1.1 = i + k ∧ l.get? k = some r.1.2
        ∧ middleCheck O home ending allB ta ts r.1.2 = some r.2 := by
  intro l
  induction l with
  | nil =>
    intro i best r h
    exact Or.inl (by simpa [bestMiddleScan] using h)
  | cons b rest ih =>
    intro i best r h
    unfold bestMiddleScan at h
    cases hchk : middleCheck O home ending allB ta ts b with
    | none =>
      rw [hchk] at h
      rcases ih (i+1) best r h with h1 | ⟨k, hk1, hk2, hk3⟩
      · exact Or.inl h1
      · exact Or.inr ⟨k+1, by omega, by simpa using hk2, hk3⟩
    | some diff =>
      rw [hchk] at h
      rcases ih (i+1) _ r h with h1 | ⟨k, hk1, hk2, hk3⟩
      · rcases betterScored_some h1 with h2 | h2
        · refine Or.inr ⟨0, ?_, ?_, ?_⟩
          · simp [h2]
          · rw [h2]; rfl
          · rw [h2]; exact hchk
        · exact Or.inl h2
      · exact Or.inr ⟨k+1, by omega, by simpa using hk2, hk3⟩

theorem middleLoop_cons (O : Oracles) (home : Point) (ending : Booking) (allB : List Booking) :
    ∀ (fuel : ℕ) (ts : TempState) (ta : List ℕ) (cands : List Booking) (m : Booking)
      (rest : List Booking),
      middleLoop O home ending allB fuel ts ta cands = m :: rest →
      ∃ k d fuel', fuel = fuel' + 1 ∧ cands.get? k = some m
        ∧ middleCheck O home ending allB ta ts m = some d
        ∧ rest = middleLoop O home ending allB fuel' (middleAdvance O ts m)
            (m.booking_id :: ta) (cands.eraseIdx k) := by
  intro fuel ts ta cands m rest h
  match fuel with
  | 0 => simp [middleLoop] at h
  | fuel + 1 =>
    unfold middleLoop at h
    by_cases hc : cands.isEmpty
    · rw [if_pos hc] at h; cases h
    · rw [if_neg hc] at h
      cases hscan : bestMiddleScan O home ending allB ta ts cands 0 none with
      | none => rw [hscan] at h; cases h
      | some p =>
        obtain ⟨⟨i, b⟩, d⟩ := p
        rw [hscan] at h
        have hb : b = m := (List.cons.inj h).1
        have hrest := (List.cons.inj h).2
        rcases bestMiddleScan_some O home ending allB ta ts cands 0 none _ hscan with h1 | h1
        · cases h1
        · obtain ⟨k, hk1, hk2, hk3⟩ := h1
          have hik : i = k := by simpa using hk1
          subst hb
          refine ⟨k, d, fuel, rfl, ?_, hk3, ?_⟩
          · simpa using hk2
          · rw [← hrest, hik]

theorem middleLoop_mem (O : Oracles) (home : Point) (ending : Booking) (allB : List Booking) :
    ∀ (fuel : ℕ) (ts : TempState) (ta : List ℕ) (cands : List Booking) (m : Booking),
      m ∈ middleLoop O home ending allB fuel ts ta cands → m ∈ cands := by
  intro fuel
  induction fuel with
  | zero => intro ts ta cands m h; simp [middleLoop] at h
  | succ fuel ih =>
    intro ts ta cands m h
    cases hml : middleLoop O home ending allB (fuel+1) ts ta cands with
    | nil => rw [hml] at h; cases h
    | cons x rest =>
      rw [hml] at h
      obtain ⟨k, d, fuel', hf, hget, hchk, hrest⟩ :=
        middleLoop_cons O home ending allB (fuel+1) ts ta cands x rest hml
      have hf' : fuel' = fuel := by omega
      subst hf'
      rcases List.mem_cons.mp h with h1 | h1
      · subst h1; exact List.get?_mem hget
      · have h2 := ih _ _ _ m (by rw [← hrest]; exact h1)
        exact (List.eraseIdx_sublist cands k).subset h2

theorem find_middle_bookings_mem (O : Oracles) (v : VehicleState) (ending : Booking)
    (available : List Booking) (assigned : List ℕ) (allB : List Booking) (m : Booking)
    (hm : m ∈ find_middle_bookings O v ending available assigned allB) :
    m ∈ available ∧ middleWindowFilter v ending assigned m = true := by
  unfold find_middle_bookings at hm
  have h1 := middleLoop_mem O v.home ending allB 10 _ _ _ m hm
  have h2 := sortByPickup_mem.mp h1
  exact ⟨(List.mem_filter.mp h2).1, (List.mem_filter.mp h2).2⟩

/-- C6 (amended): every middle booking selected by `find_middle_bookings` has
its pickup time at least the vehicle's `available_time` at entry (the window
test is the non-strict `current_time <= pickup`, not re-checked against the
rolling clock) and strictly below the ending booking's pickup time. -/
theorem C6_middle_time_window (O : Oracles) (v : VehicleState) (ending : Booking)
    (available : List Booking) (assigned : List ℕ) (allB : List Booking) (m : Booking)
    (hm : m ∈ find_middle_bookings O v ending available assigned allB) :
    v.available_time ≤ m.pickup_min ∧ m.pickup_min < ending.pickup_min := by
  have h := (find_middle_bookings_mem O v ending available assigned allB m hm).2
  simp only [middleWindowFilter, Bool.and_eq_true, decide_eq_true_eq] at h
  tauto

end Dispatch

namespace Dispatch

/-- Witness for C6: the amended window property applied to the concrete
selection run that picks `bkM1` (pickup minute 460) for `vehMid` (available
from minute 460) ahead of ending `bkDE` (pickup minute 700). -/
theorem C6_middle_time_window_witness :
    Examples.vehMid.available_time ≤ Examples.bkM1.pickup_min
      ∧ Examples.bkM1.pickup_min < Examples.bkDE.pickup_min :=
  C6_middle_time_window Examples.uniformO Examples.vehMid Examples.bkDE
    [Examples.bkM1, Examples.bkM2] [1]
    [Examples.bkD1, Examples.bkM1, Examples.bkM2, Examples.bkDE] Examples.bkM1
    (by norm_num [find_middle_bookings, middleLoop, bestMiddleScan, middleCheck,
      middleAdvance, middleWindowFilter, betterScored, sortByPickup, insertByPickup,
      calculate_ddm, ddmInterLegs, calculate_travel_time, calculate_active_km,
      bookingMatches, near, List.eraseIdx, Examples.uniformO, Examples.vehMid,
      Examples.bkD1, Examples.bkM1, Examples.bkM2, Examples.bkDE, Examples.H,
      Examples.pk1, Examples.dr1, Examples.pk3, Examples.dr3, Examples.pk4,
      Examples.dr4, Examples.pkE, Examples.drE, Point.mk.injEq, Booking.mk.injEq])

/-- C6 counterexample: in the concrete selection run, `find_middle_bookings`
returns `[bkM1, bkM2]`, where the first selected middle booking `bkM1` has
pickup minute 460 equal to the vehicle's available time — not strictly above
it — refuting the strict lower bound of the claim (the second round
furthermore selects `bkM2`, whose pickup minute 465 lies below the rolling
clock 502 after the first commit). -/
theorem C6_counterexample :
    find_middle_bookings Examples.uniformO Examples.vehMid Examples.bkDE
        [Examples.bkM1, Examples.bkM2] [1]
        [Examples.bkD1, Examples.bkM1, Examples.bkM2, Examples.bkDE]
      = [Examples.bkM1, Examples.bkM2]
    ∧ ¬(Examples.vehMid.available_time < Examples.bkM1.pickup_min) := by
  constructor
  · norm_num [find_middle_bookings, middleLoop, bestMiddleScan, middleCheck,
      middleAdvance, middleWindowFilter, betterScored, sortByPickup, insertByPickup,
      calculate_ddm, ddmInterLegs, calculate_travel_time, calculate_active_km,
      bookingMatches, near, List.eraseIdx, Examples.uniformO, Examples.vehMid,
      Examples.bkD1, Examples.bkM1, Examples.bkM2, Examples.bkDE, Examples.H,
      Examples.pk1, Examples.dr1, Examples.pk3, Examples.dr3, Examples.pk4,
      Examples.dr4, Examples.pkE, Examples.drE, Point.mk.injEq, Booking.mk.injEq]
  · norm_num [Examples.vehMid, Examples.bkM1]

/-- C4 counterexample: starting from an initialised vehicle, a single fresh
commit of `bkA1` under `farO` (31 km legs, so the vehicle arrives 2 minutes
late and `available_time` becomes 462) followed by the route-completion
rollback (no ending booking exists) resets `available_time` to 460 — a
strict decrease during a planner transition. -/
theorem C4_counterexample :
    (complete_vehicle_route Examples.farO Examples.vehFar [] [Examples.bkA1]
        [Examples.bkA1] [1]).1.available_time < Examples.vehFar.available_time := by
  norm_num [complete_vehicle_route, completeGate, find_ending_booking, endingStrictPass,
    endingFallbackPass, freshResetAvailable, acceptTail, commitList,
    assign_booking_to_vehicle, find_middle_bookings, middleLoop, bestMiddleScan,
    sortByPickup, insertByPickup, middleWindowFilter, betterScored,
    calculate_travel_time, deadKmOpen, interLegs, activePayGet, deadPayGet,
    active_driver_pay, dead_driver_pay, Examples.farO, Examples.vehFar,
    Examples.bkA1, Examples.vehA, initialize_vehicle, Examples.H, Examples.pk1,
    Examples.dr1, Point.mk.injEq]

/-- C4 (amended): `available_time` never decreases across initialisation, any
single-booking commit (provided the travel leg and the booking's ride time
are non-negative), or finalisation; the route-completion rollback paths,
however, reset it backwards to the completion time of the vehicle's first
assigned booking, as the counterexample shows. -/
theorem C4_commit_and_finalize_monotone (O : Oracles) (b : Booking) (v : VehicleState)
    (hd : 0 ≤ O.dist v.current b.pickup) (ht : 0 ≤ b.travel_time.getD 0) :
    v.available_time ≤ (assign_booking_to_vehicle O b v).available_time
      ∧ (finalizeVehicle O v).available_time = v.available_time := by
  constructor
  · simp only [assign_booking_to_vehicle]
    have h1 : 0 ≤ calculate_travel_time (O.dist v.current b.pickup) := by
      unfold calculate_travel_time
      have := div_nonneg hd (by norm_num : (0:ℚ) ≤ 30)
      nlinarith
    have h2 := le_max_left
      (v.available_time + calculate_travel_time (O.dist v.current b.pickup)) b.pickup_min
    linarith
  · unfold finalizeVehicle
    split
    · rfl
    · split <;> rfl

/-- Witness for C4: the amended monotonicity applied at the concrete fresh
commit of `bkA1` to the initialised vehicle `vehA`. -/
theorem C4_commit_and_finalize_monotone_witness :
    Examples.vehA.available_time
        ≤ (assign_booking_to_vehicle Examples.uniformO Examples.bkA1 Examples.vehA).available_time
      ∧ (finalizeVehicle Examples.uniformO Examples.vehA).available_time
        = Examples.vehA.available_time :=
  C4_commit_and_finalize_monotone Examples.uniformO Examples.bkA1 Examples.vehA
    (by norm_num [Examples.uniformO, Examples.vehA, initialize_vehicle, Examples.bkA1,
      Examples.H, Examples.pk1, Point.mk.injEq])
    (by norm_num [Examples.bkA1])

end Dispatch

namespace Dispatch

/-! ### The efficiency gate -/

/-- `completeGate` either accepts (returning `acceptTail` with the full id
list) or rejects (returning the restored snapshot with no ids). -/
theorem completeGate_cases (O : Oracles) (v : VehicleState) (allB : List Booking)
    (v2 : VehicleState) (ids : List ℕ) (clog : List (VehicleState × Booking)) :
    completeGate O v allB v2 ids clog = (acceptTail O v2 ids, ids, clog)
    ∨ completeGate O v allB v2 ids clog
        = ({ freshResetAvailable allB v with is_routed := false }, [], clog) := by
  unfold completeGate
  split_ifs <;> simp

theorem acceptTail_fields (O : Oracles) (v2 : VehicleState) (ids : List ℕ)
    (hi : ids ≠ []) (hr : v2.route ≠ []) :
    (acceptTail O v2 ids).active_km = v2.active_km
    ∧ (acceptTail O v2 ids).dead_km = v2.dead_km + O.dist v2.current v2.home
    ∧ (acceptTail O v2 ids).current = v2.current
    ∧ (acceptTail O v2 ids).home = v2.home
    ∧ (acceptTail O v2 ids).is_routed = true
    ∧ (acceptTail O v2 ids).assigned_bookings = v2.assigned_bookings := by
  have hie : ids.isEmpty = false := by
    cases ids with
    | nil => exact absurd rfl hi
    | cons a l => rfl
  have hre : v2.route.isEmpty = false := by
    cases hv : v2.route with
    | nil => exact absurd hv hr
    | cons a l => rfl
  unfold acceptTail acceptTailFinal
  rw [hie]
  simp [hre]

/-- When `completeGate` returns a non-empty id list the gate has passed: the
resulting vehicle's efficiency is at least 55% and its final drop sits within
20 km of home. -/
theorem completeGate_accepted (O : Oracles) (v : VehicleState) (allB : List Booking)
    (v2 : VehicleState) (ids : List ℕ) (clog : List (VehicleState × Booking))
    (hr : v2.route ≠ [])
    (hne : (completeGate O v allB v2 ids clog).2.1 ≠ []) :
    0 < (completeGate O v allB v2 ids clog).1.active_km
        + (completeGate O v allB v2 ids clog).1.dead_km
    ∧ 55/100 ≤ (completeGate O v allB v2 ids clog).1.active_km
        / ((completeGate O v allB v2 ids clog).1.active_km
            + (completeGate O v allB v2 ids clog).1.dead_km)
    ∧ O.dist (completeGate O v allB v2 ids clog).1.current
        (completeGate O v allB v2 ids clog).1.home ≤ 20 := by
  have hi : ids ≠ [] := by
    rcases completeGate_cases O v allB v2 ids clog with hc | hc <;> rw [hc] at hne
    · exact hne
    · exact absurd rfl hne
  unfold completeGate at hne ⊢
  rw [if_neg (by simp [List.isEmpty_iff, hr])] at hne ⊢
  by_cases heff :
      (if 0 < v2.active_km + (v2.dead_km + O.dist v2.current v2.home)
       then v2.active_km / (v2.active_km + (v2.dead_km + O.dist v2.current v2.home)) * 100
       else 0) < 55
  · rw [if_pos heff] at hne
    exact absurd rfl hne
  · rw [if_neg heff] at hne ⊢
    by_cases h20 : 20 < O.dist v2.current v2.home
    · rw [if_pos h20] at hne
      exact absurd rfl hne
    · rw [if_neg h20] at hne ⊢
      obtain ⟨ha, hd, hcur, hhome, _, _⟩ := acceptTail_fields O v2 ids hi hr
      by_cases htot : 0 < v2.active_km + (v2.dead_km + O.dist v2.current v2.home)
      · rw [if_pos htot] at heff
        push_neg at heff
        have h2 : 55 * (v2.active_km + (v2.dead_km + O.dist v2.current v2.home))
            ≤ v2.active_km * 100 := by
          rw [div_mul_eq_mul_div, le_div_iff htot] at heff
          linarith
        refine ⟨?_, ?_, ?_⟩
        · rw [ha, hd]; linarith
        · rw [ha, hd, le_div_iff htot]
          linarith
        · rw [hcur, hhome]
          exact not_lt.mp h20
      · rw [if_neg htot] at heff
        norm_num at heff

theorem complete_vehicle_route_eq_none (O : Oracles) (v : VehicleState)
    (available descending allB : List Booking) (assigned : List ℕ)
    (hend : find_ending_booking O v descending assigned = none) :
    complete_vehicle_route O v available descending allB assigned
      = ({ freshResetAvailable allB v with is_routed := false }, [], []) := by
  unfold complete_vehicle_route
  rw [hend]

theorem complete_vehicle_route_eq_gate (O : Oracles) (v : VehicleState)
    (available descending allB : List Booking) (assigned : List ℕ) (ending : Booking)
    (hend : find_ending_booking O v descending assigned = some ending) :
    complete_vehicle_route O v available descending allB assigned
      = completeGate O v allB
          (assign_booking_to_vehicle O ending
            (commitList O v (find_middle_bookings O v ending available assigned allB)).1)
          ((find_middle_bookings O v ending available assigned allB).map
              (fun m => m.booking_id) ++ [ending.booking_id])
          ((commitList O v (find_middle_bookings O v ending available assigned allB)).2
            ++ [((commitList O v
                  (find_middle_bookings O v ending available assigned allB)).1, ending)]) := by
  unfold complete_vehicle_route
  rw [hend]

/-- C3 (amended): a route completion that actually assigned bookings (the
returned id list is non-empty, hence `is_routed` was set by
`complete_vehicle_route` itself) satisfies the efficiency gate: the vehicle's
final efficiency `active/(active+dead)` is at least 0.55 and its last drop is
at most 20 km from home.  (A vehicle finalised by the end-of-run loop of
`process_bookings_home_oriented` is marked `is_routed` without this
guarantee, as the counterexample shows.) -/
theorem C3_accepted_route_gate (O : Oracles) (v : VehicleState)
    (available descending allB : List Booking) (assigned : List ℕ)
    (hne : (complete_vehicle_route O v available descending allB assigned).2.1 ≠ []) :
    0 < (complete_vehicle_route O v available descending allB assigned).1.active_km
        + (complete_vehicle_route O v available descending allB assigned).1.dead_km
    ∧ 55/100 ≤ (complete_vehicle_route O v available descending allB assigned).1.active_km
        / ((complete_vehicle_route O v available descending allB assigned).1.active_km
            + (complete_vehicle_route O v available descending allB assigned).1.dead_km)
    ∧ O.dist (complete_vehicle_route O v available descending allB assigned).1.current
        (complete_vehicle_route O v available descending allB assigned).1.home ≤ 20 := by
  cases hend : find_ending_booking O v descending assigned with
  | none =>
    rw [complete_vehicle_route_eq_none O v available descending allB assigned hend] at hne
    exact absurd rfl hne
  | some ending =>
    rw [complete_vehicle_route_eq_gate O v available descending allB assigned ending hend]
      at hne ⊢
    apply completeGate_accepted
    · simp [assign_booking_to_vehicle]
    · exact hne

end Dispatch

namespace Dispatch

/-- Witness for C3: the gate theorem applied to the concrete accepting
completion of `runB` (fresh `bkB1`, ending `bkBE`; efficiency 4/7 ≥ 0.55,
final leg 1 km ≤ 20 km). -/
theorem C3_accepted_route_gate_witness :
    0 < (complete_vehicle_route Examples.uniformO Examples.vehB1 [Examples.bkBE]
          [Examples.bkBE, Examples.bkB1] [Examples.bkB1, Examples.bkBE] [1]).1.active_km
        + (complete_vehicle_route Examples.uniformO Examples.vehB1 [Examples.bkBE]
          [Examples.bkBE, Examples.bkB1] [Examples.bkB1, Examples.bkBE] [1]).1.dead_km
    ∧ 55/100 ≤ (complete_vehicle_route Examples.uniformO Examples.vehB1 [Examples.bkBE]
          [Examples.bkBE, Examples.bkB1] [Examples.bkB1, Examples.bkBE] [1]).1.active_km
        / ((complete_vehicle_route Examples.uniformO Examples.vehB1 [Examples.bkBE]
          [Examples.bkBE, Examples.bkB1] [Examples.bkB1, Examples.bkBE] [1]).1.active_km
            + (complete_vehicle_route Examples.uniformO Examples.vehB1 [Examples.bkBE]
          [Examples.bkBE, Examples.bkB1] [Examples.bkB1, Examples.bkBE] [1]).1.dead_km)
    ∧ Examples.uniformO.dist
        (complete_vehicle_route Examples.uniformO Examples.vehB1 [Examples.bkBE]
          [Examples.bkBE, Examples.bkB1] [Examples.bkB1, Examples.bkBE] [1]).1.current
        (complete_vehicle_route Examples.uniformO Examples.vehB1 [Examples.bkBE]
          [Examples.bkBE, Examples.bkB1] [Examples.bkB1, Examples.bkBE] [1]).1.home ≤ 20 :=
  C3_accepted_route_gate Examples.uniformO Examples.vehB1 [Examples.bkBE]
    [Examples.bkBE, Examples.bkB1] [Examples.bkB1, Examples.bkBE] [1]
    (by norm_num [complete_vehicle_route, completeGate, find_ending_booking,
      endingStrictPass, endingFallbackPass, endingQualifies, freshResetAvailable,
      acceptTail, commitList, assign_booking_to_vehicle, find_middle_bookings,
      middleLoop, bestMiddleScan, middleCheck, middleAdvance, middleWindowFilter,
      betterScored, sortByPickup, insertByPickup, calculate_ddm, ddmInterLegs,
      calculate_active_km, bookingMatches, near, is_vehicle_available_for_booking,
      calculate_travel_time, deadKmOpen, interLegs, activePayGet, deadPayGet,
      active_driver_pay, dead_driver_pay, Examples.uniformO, Examples.vehB1,
      Examples.vehA, initialize_vehicle, Examples.bkB1, Examples.bkBE, Examples.H,
      Examples.pk1, Examples.dr1, Examples.pkE, Examples.drE, Point.mk.injEq,
      Booking.mk.injEq])

/-- C3 counterexample: in `runA` both route completions of the single vehicle
fail (no ending booking leaves a 180-minute gap), so the vehicle collects two
fresh bookings and the end-of-run finalisation marks it `is_routed = true`
without any gate check; its efficiency 2/(2+3) = 0.4 is below 0.55, refuting
the claim. -/
theorem C3_counterexample :
    Examples.vA.is_routed = true
    ∧ Examples.vA.assigned_bookings.length = 2
    ∧ Examples.vA.active_km / (Examples.vA.active_km + Examples.vA.dead_km) < 55/100 := by
  refine ⟨?_, ?_, ?_⟩ <;>
    norm_num [Examples.vA, Examples.runA, process_bookings_home_oriented, processBooking,
      commitFreshAndComplete, commitResult, commitTouchUp, recordAttempt, processCommit,
      processUpgrade, complete_vehicle_route, completeGate, find_ending_booking,
      endingStrictPass, endingFallbackPass, endingQualifies, find_middle_bookings,
      middleLoop, bestMiddleScan, middleCheck, middleAdvance, middleWindowFilter,
      betterScored, freshResetAvailable, commitList, acceptTail,
      assign_booking_to_vehicle, get_suitable_vehicles, suitableBasic, suitableAtRadius,
      searchFrom, bestVehicle, bestVehicleScan, calculate_ddm, ddmInterLegs,
      calculate_active_km, bookingMatches, near, sortByPickup, insertByPickup,
      is_vehicle_available_for_booking, calculate_travel_time, deadKmOpen, interLegs,
      activePayGet, deadPayGet, active_driver_pay, dead_driver_pay, finalizeVehicle,
      initialize_vehicle, Examples.uniformO, Examples.bkA1, Examples.bkA2, Examples.vehA,
      Examples.H, Examples.pk1, Examples.dr1, Examples.pk2, Examples.dr2,
      Point.mk.injEq, Booking.mk.injEq, List.enum, List.enumFrom]

end Dispatch

namespace Dispatch

/-! ### Field lemmas for the single-booking commit and the resets -/

theorem assign_assigned_bookings (O : Oracles) (b : Booking) (v : VehicleState) :
    (assign_booking_to_vehicle O b v).assigned_bookings
      = v.assigned_bookings ++ [b.booking_id] := rfl

theorem assign_route (O : Oracles) (b : Booking) (v : VehicleState) :
    (assign_booking_to_vehicle O b v).route = v.route ++ [b.pickup, b.drop] := rfl

theorem assign_current (O : Oracles) (b : Booking) (v : VehicleState) :
    (assign_booking_to_vehicle O b v).current = b.drop := rfl

theorem assign_available_time (O : Oracles) (b : Booking) (v : VehicleState) :
    (assign_booking_to_vehicle O b v).available_time
      = max (v.available_time + calculate_travel_time (O.dist v.current b.pickup)) b.pickup_min
        + b.travel_time.getD 0 + 30 := rfl

theorem assign_available_ge (O : Oracles) (b : Booking) (v : VehicleState)
    (ht : 0 ≤ b.travel_time.getD 0) :
    b.pickup_min + 30 ≤ (assign_booking_to_vehicle O b v).available_time := by
  rw [assign_available_time]
  have := le_max_right
    (v.available_time + calculate_travel_time (O.dist v.current b.pickup)) b.pickup_min
  linarith

theorem freshResetAvailable_assigned (allB : List Booking) (v : VehicleState) :
    (freshResetAvailable allB v).assigned_bookings = v.assigned_bookings := by
  unfold freshResetAvailable
  split
  · rfl
  · split <;> rfl

theorem acceptTailFinal_assigned (O : Oracles) (v1 : VehicleState) :
    (acceptTailFinal O v1).assigned_bookings = v1.assigned_bookings := by
  unfold acceptTailFinal
  split_ifs <;> rfl

theorem acceptTail_assigned (O : Oracles) (v2 : VehicleState) (ids : List ℕ) :
    (acceptTail O v2 ids).assigned_bookings = v2.assigned_bookings := by
  unfold acceptTail
  split_ifs <;> simp [acceptTailFinal_assigned]

theorem finalizeVehicle_assigned (O : Oracles) (v : VehicleState) :
    (finalizeVehicle O v).assigned_bookings = v.assigned_bookings := by
  unfold finalizeVehicle
  split_ifs <;> rfl

theorem finalizeVehicle_available_time (O : Oracles) (v : VehicleState) :
    (finalizeVehicle O v).available_time = v.available_time := by
  unfold finalizeVehicle
  split_ifs <;> rfl

theorem getD_zero_le_getD_thirty (o : Option ℚ) : o.getD 0 ≤ o.getD 30 := by
  cases o with
  | none => norm_num
  | some t => exact le_refl t

/-! ### Decompositions of the Boolean qualifiers -/

theorem contains_eq_true_iff {l : List ℕ} {a : ℕ} : l.contains a = true ↔ a ∈ l := by
  simp [List.contains, List.elem_iff]

theorem contains_eq_false_iff {l : List ℕ} {a : ℕ} : l.contains a = false ↔ a ∉ l := by
  rw [← Bool.not_eq_true, contains_eq_true_iff]

theorem is_vehicle_available_true {O : Oracles} {v : VehicleState} {b : Booking}
    (h : is_vehicle_available_for_booking O v b = true) :
    v.available_time + calculate_travel_time (O.dist v.current b.pickup)
      ≤ b.pickup_min + 60 := by
  simpa [is_vehicle_available_for_booking] using h

theorem is_vehicle_available_classUp (O : Oracles) (v : VehicleState) (b : Booking) (c : ℕ) :
    is_vehicle_available_for_booking O v { b with vclass := c }
      = is_vehicle_available_for_booking O v b := rfl

theorem endingQualifies_true {O : Oracles} {v : VehicleState} {assigned : List ℕ} {b : Booking}
    (h : endingQualifies O v assigned b = true) :
    b.booking_id ∉ assigned
    ∧ v.available_time + calculate_travel_time (O.dist v.current b.pickup) ≤ b.pickup_min + 60
    ∧ 180 ≤ b.pickup_min - v.available_time := by
  simp only [endingQualifies, Bool.and_eq_true, Bool.not_eq_true',
    is_vehicle_available_for_booking, decide_eq_true_eq, contains_eq_false_iff] at h
  tauto

theorem middleWindowFilter_true {v : VehicleState} {ending : Booking} {assigned : List ℕ}
    {b : Booking} (h : middleWindowFilter v ending assigned b = true) :
    b.booking_id ∉ assigned
    ∧ b.booking_id ≠ ending.booking_id
    ∧ v.available_time ≤ b.pickup_min
    ∧ b.pickup_min < ending.pickup_min := by
  simp only [middleWindowFilter, Bool.and_eq_true, Bool.not_eq_true',
    contains_eq_false_iff, beq_eq_false_iff_ne, decide_eq_true_eq] at h
  tauto

theorem suitableBasic_true {O : Oracles} {b : Booking} {v : VehicleState}
    (h : suitableBasic O b v = true) :
    v.is_routed = false ∧ v.vclass = b.vclass
    ∧ v.available_time + calculate_travel_time (O.dist v.current b.pickup)
        ≤ b.pickup_min + 60 := by
  simp only [suitableBasic, Bool.and_eq_true, Bool.not_eq_true',
    is_vehicle_available_for_booking, decide_eq_true_eq, beq_iff_eq] at h
  tauto

/-! ### Specs of the ending search -/

theorem endingStrictPass_some (O : Oracles) (v : VehicleState) (assigned : List ℕ) :
    ∀ (l : List Booking) (best : Option (Booking × ℚ)) (b : Booking),
      endingStrictPass O v assigned l best = some b →
      (∃ d, best = some (b, d)) ∨ (b ∈ l ∧ endingQualifies O v assigned b = true) := by
  intro l
  induction l with
  | nil =>
    intro best b h
    cases best with
    | none => simp [endingStrictPass] at h
    | some p =>
      simp only [endingStrictPass, Option.map_some'] at h
      refine Or.inl ⟨p.2, ?_⟩
      rw [← Option.some.inj h]
  | cons x rest ih =>
    intro best b h
    unfold endingStrictPass at h
    by_cases hq : endingQualifies O v assigned x = true
    · rw [if_pos hq] at h
      by_cases h5 : O.dist x.drop v.home ≤ 5
      · rw [if_pos h5] at h
        by_cases h3 : O.dist x.drop v.home ≤ 3
        · rw [if_pos h3] at h
          have hb : x = b := Option.some.inj h
          subst hb
          exact Or.inr ⟨List.mem_cons_self x rest, hq⟩
        · rw [if_neg h3] at h
          rcases ih _ b h with ⟨d, hd⟩ | ⟨hm, hqb⟩
          · rcases betterScored_some hd with h1 | h1
            · have hb : b = x := ((Prod.mk.injEq _ _ _ _).mp h1).1
              subst hb
              exact Or.inr ⟨List.mem_cons_self b rest, hq⟩
            · exact Or.inl ⟨d, h1⟩
          · exact Or.inr ⟨List.mem_cons_of_mem x hm, hqb⟩
      · rw [if_neg h5] at h
        rcases ih best b h with h1 | ⟨hm, hqb⟩
        · exact Or.inl h1
        · exact Or.inr ⟨List.mem_cons_of_mem x hm, hqb⟩
    · rw [if_neg hq] at h
      rcases ih best b h with h1 | ⟨hm, hqb⟩
      · exact Or.inl h1
      · exact Or.inr ⟨List.mem_cons_of_mem x hm, hqb⟩

theorem endingFallbackPass_some (O : Oracles) (v : VehicleState) (assigned : List ℕ) :
    ∀ (l : List Booking) (best : Option (Booking × ℚ)) (b : Booking),
      endingFallbackPass O v assigned l best = some b →
      (∃ d, best = some (b, d)) ∨ (b ∈ l ∧ endingQualifies O v assigned b = true) := by
  intro l
  induction l with
  | nil =>
    intro best b h
    cases best with
    | none => simp [endingFallbackPass] at h
    | some p =>
      simp only [endingFallbackPass, Option.map_some'] at h
      refine Or.inl ⟨p.2, ?_⟩
      rw [← Option.some.inj h]
  | cons x rest ih =>
    intro best b h
    unfold endingFallbackPass at h
    by_cases hq : endingQualifies O v assigned x = true
    · rw [if_pos hq] at h
      by_cases h15 : O.dist x.drop v.home ≤ 15
      · rw [if_pos h15] at h
        rcases ih _ b h with ⟨d, hd⟩ | ⟨hm, hqb⟩
        · rcases betterScored_some hd with h1 | h1
          · have hb : b = x := ((Prod.mk.injEq _ _ _ _).mp h1).1
            subst hb
            exact Or.inr ⟨List.mem_cons_self b rest, hq⟩
          · exact Or.inl ⟨d, h1⟩
        · exact Or.inr ⟨List.mem_cons_of_mem x hm, hqb⟩
      · rw [if_neg h15] at h
        rcases ih best b h with h1 | ⟨hm, hqb⟩
        · exact Or.inl h1
        · exact Or.inr ⟨List.mem_cons_of_mem x hm, hqb⟩
    · rw [if_neg hq] at h
      rcases ih best b h with h1 | ⟨hm, hqb⟩
      · exact Or.inl h1
      · exact Or.inr ⟨List.mem_cons_of_mem x hm, hqb⟩

theorem find_ending_booking_some {O : Oracles} {v : VehicleState} {descending : List Booking}
    {assigned : List ℕ} {e : Booking}
    (h : find_ending_booking O v descending assigned = some e) :
    e ∈ descending ∧ endingQualifies O v assigned e = true := by
  unfold find_ending_booking at h
  cases hs : endingStrictPass O v assigned descending none with
  | some b =>
    rw [hs] at h
    have hb : b = e := Option.some.inj h
    subst hb
    rcases endingStrictPass_some O v assigned descending none b hs with ⟨d, hd⟩ | h1
    · cases hd
    · exact h1
  | none =>
    rw [hs] at h
    rcases endingFallbackPass_some O v assigned descending none e h with ⟨d, hd⟩ | h1
    · cases hd
    · exact h1

end Dispatch

namespace Dispatch

/-! ### Specs of the candidate-vehicle search and selection -/

theorem mem_enum_get? {α : Type} {l : List α} {i : ℕ} {a : α}
    (h : (i, a) ∈ l.enum) : l.get? i = some a := by
  obtain ⟨h1, h2⟩ := List.mem_enum h
  rw [List.get?_eq_getElem?, List.getElem?_eq_getElem h1, h2]

theorem suitableAtRadius_mem {O : Oracles} {b : Booking} {bhex : ℕ}
    {ivs : List (ℕ × VehicleState)} {r : ℕ} {iv : ℕ × VehicleState}
    (h : iv ∈ suitableAtRadius O b bhex ivs r) :
    iv ∈ ivs ∧ suitableBasic O b iv.2 = true := by
  unfold suitableAtRadius at h
  split_ifs at h <;>
  · have h1 := List.mem_filter.mp h
    have h2 := h1.2
    simp only [Bool.and_eq_true] at h2
    exact ⟨h1.1, h2.1⟩

theorem searchFrom_mem {O : Oracles} {b : Booking} {bhex : ℕ}
    {ivs : List (ℕ × VehicleState)} :
    ∀ {r fuel : ℕ} {iv : ℕ × VehicleState}, iv ∈ searchFrom O b bhex ivs r fuel →
      iv ∈ ivs ∧ suitableBasic O b iv.2 = true := by
  intro r fuel
  induction fuel generalizing r with
  | zero => intro iv h; simp [searchFrom] at h
  | succ fuel ih =>
    intro iv h
    unfold searchFrom at h
    split_ifs at h
    · exact ih h
    · exact suitableAtRadius_mem h

theorem get_suitable_vehicles_mem {O : Oracles} {vehicles : List VehicleState} {b : Booking}
    {iv : ℕ × VehicleState} (h : iv ∈ get_suitable_vehicles O vehicles b) :
    vehicles.get? iv.1 = some iv.2 ∧ suitableBasic O b iv.2 = true := by
  unfold get_suitable_vehicles at h
  cases hh : O.latlngToH3 b.pickup with
  | none =>
    rw [hh] at h
    have h1 := List.mem_filter.mp h
    exact ⟨mem_enum_get? (by simpa using h1.1), h1.2⟩
  | some bhex =>
    rw [hh] at h
    obtain ⟨h1, h2⟩ := searchFrom_mem h
    exact ⟨mem_enum_get? (by simpa using h1), h2⟩

theorem bestVehicleScan_some (O : Oracles) (allB : List Booking) (b : Booking) :
    ∀ (l : List (ℕ × VehicleState)) (best : Option ((ℕ × VehicleState) × ℚ))
      (r : (ℕ × VehicleState) × ℚ),
      bestVehicleScan O allB b l best = some r → best = some r ∨ r.1 ∈ l := by
  intro l
  induction l with
  | nil =>
    intro best r h
    exact Or.inl (by simpa [bestVehicleScan] using h)
  | cons iv rest ih =>
    intro best r h
    unfold bestVehicleScan at h
    rcases ih _ r h with h1 | h1
    · rcases betterScored_some h1 with h2 | h2
      · exact Or.inr (by rw [h2]; exact List.mem_cons_self iv rest)
      · exact Or.inl h2
    · exact Or.inr (List.mem_cons_of_mem iv h1)

theorem betterScored_ne_none {α : Type} (x : α × ℚ) (best : Option (α × ℚ)) :
    betterScored x best ≠ none := by
  cases best with
  | none => simp [betterScored]
  | some y =>
    simp only [betterScored]
    split <;> simp

theorem bestVehicleScan_ne_none (O : Oracles) (allB : List Booking) (b : Booking) :
    ∀ (l : List (ℕ × VehicleState)) (best : Option ((ℕ × VehicleState) × ℚ)),
      best ≠ none → bestVehicleScan O allB b l best ≠ none := by
  intro l
  induction l with
  | nil => intro best hb h; rw [bestVehicleScan] at h; exact hb h
  | cons iv rest ih =>
    intro best hb h
    unfold bestVehicleScan at h
    exact ih _ (betterScored_ne_none _ _) h

theorem bestVehicle_some {O : Oracles} {allB : List Booking} {b : Booking}
    {l : List (ℕ × VehicleState)} {iv : ℕ × VehicleState}
    (h : bestVehicle O allB b l = some iv) : iv ∈ l := by
  unfold bestVehicle at h
  cases hs : bestVehicleScan O allB b l none with
  | none => rw [hs] at h; cases h
  | some r =>
    rw [hs] at h
    have hr : r.1 = iv := Option.some.inj h
    rcases bestVehicleScan_some O allB b l none r hs with h1 | h1
    · cases h1
    · rw [← hr]; exact h1

theorem bestVehicle_of_ne_nil {O : Oracles} {allB : List Booking} {b : Booking}
    {l : List (ℕ × VehicleState)} (h : l ≠ []) :
    ∃ iv, bestVehicle O allB b l = some iv := by
  cases l with
  | nil => exact absurd rfl h
  | cons x rest =>
    cases hs : bestVehicleScan O allB b (x :: rest) none with
    | none =>
      rw [bestVehicleScan] at hs
      exact absurd hs (bestVehicleScan_ne_none O allB b rest _ (betterScored_ne_none _ _))
    | some r =>
      refine ⟨r.1, ?_⟩
      unfold bestVehicle
      rw [hs]
      rfl

end Dispatch

namespace Dispatch

/-! ### Distinctness of the selected middle bookings -/

theorem map_eraseIdx {α β : Type} (f : α → β) :
    ∀ (l : List α) (k : ℕ), (l.eraseIdx k).map f = (l.map f).eraseIdx k
  | [], _ => by simp
  | x :: xs, 0 => by simp [List.eraseIdx]
  | x :: xs, k+1 => by simp [List.eraseIdx, map_eraseIdx f xs k]

theorem not_mem_eraseIdx_of_nodup {α : Type} :
    ∀ (l : List α) (k : ℕ) (a : α), l.Nodup → l.get? k = some a → a ∉ l.eraseIdx k := by
  intro l
  induction l with
  | nil => intro k a _ h; simp [List.get?] at h
  | cons x xs ih =>
    intro k a hnd h
    cases k with
    | zero =>
      have hax : x = a := by simpa using h
      subst hax
      simpa [List.eraseIdx] using (List.nodup_cons.mp hnd).1
    | succ k =>
      have hx : x ∉ xs := (List.nodup_cons.mp hnd).1
      have hmem : a ∈ xs := List.get?_mem (by simpa using h)
      have hne : a ≠ x := fun hax => hx (hax ▸ hmem)
      simp only [List.eraseIdx, List.mem_cons]
      push_neg
      exact ⟨hne, ih k a (List.nodup_cons.mp hnd).2 (by simpa using h)⟩

theorem middleLoop_nodup (O : Oracles) (home : Point) (ending : Booking) (allB : List Booking) :
    ∀ (fuel : ℕ) (ts : TempState) (ta : List ℕ) (cands : List Booking),
      ((cands.map (fun b => b.booking_id))).Nodup →
      ((middleLoop O home ending allB fuel ts ta cands).map (fun b => b.booking_id)).Nodup := by
  intro fuel
  induction fuel with
  | zero => intro ts ta cands _; simp [middleLoop]
  | succ fuel ih =>
    intro ts ta cands hnd
    cases hml : middleLoop O home ending allB (fuel+1) ts ta cands with
    | nil => simp
    | cons m rest =>
      obtain ⟨k, d, fuel', hf, hget, hchk, hrest⟩ :=
        middleLoop_cons O home ending allB (fuel+1) ts ta cands m rest hml
      have hf' : fuel' = fuel := by omega
      rw [hf'] at hrest
      have hid : (cands.map (fun b => b.booking_id)).get? k = some m.booking_id := by
        rw [List.get?_map, hget]; rfl
      have herase : ((cands.eraseIdx k).map (fun b => b.booking_id)).Nodup := by
        rw [map_eraseIdx]
        exact (List.eraseIdx_sublist _ k).nodup (by exact hnd)
      have htail := ih (middleAdvance O ts m) (m.booking_id :: ta) (cands.eraseIdx k) herase
      rw [List.map_cons, List.nodup_cons]
      constructor
      · intro hmem
        rw [List.mem_map] at hmem
        obtain ⟨x, hx1, hx2⟩ := hmem
        have hx3 : x ∈ cands.eraseIdx k := by
          apply middleLoop_mem O home ending allB fuel _ _ _ x
          rw [← hrest]; exact hx1
        have hx4 : m.booking_id ∈ (cands.eraseIdx k).map (fun b => b.booking_id) := by
          rw [List.mem_map]; exact ⟨x, hx3, hx2⟩
        rw [map_eraseIdx] at hx4
        exact not_mem_eraseIdx_of_nodup _ k _ hnd hid hx4
      · rw [← hrest] at htail
        exact htail

theorem find_middle_bookings_eq (O : Oracles) (v : VehicleState) (ending : Booking)
    (available : List Booking) (assigned : List ℕ) (allB : List Booking) :
    find_middle_bookings O v ending available assigned allB
      = middleLoop O v.home ending allB 10
          { current := v.current, available_time := v.available_time, route := v.route }
          (v.assigned_bookings ++ [ending.booking_id])
          (sortByPickup (available.filter (middleWindowFilter v ending assigned))) := rfl

theorem find_middle_bookings_nodup (O : Oracles) (v : VehicleState) (ending : Booking)
    (available : List Booking) (assigned : List ℕ) (allB : List Booking)
    (h : (available.map (fun b => b.booking_id)).Nodup) :
    ((find_middle_bookings O v ending available assigned allB).map
      (fun b => b.booking_id)).Nodup := by
  rw [find_middle_bookings_eq]
  apply middleLoop_nodup
  have h1 : ((available.filter (middleWindowFilter v ending assigned)).map
      (fun b => b.booking_id)).Nodup :=
    ((List.filter_sublist available).map (fun b => b.booking_id)).nodup h
  have h2 := (sortByPickup_perm (available.filter (middleWindowFilter v ending assigned))).map
    (fun b => b.booking_id)
  exact h2.nodup_iff.mpr h1

/-! ### The id bookkeeping of `complete_vehicle_route` -/

theorem commitList_assigned (O : Oracles) :
    ∀ (ms : List Booking) (v : VehicleState),
      (commitList O v ms).1.assigned_bookings
        = v.assigned_bookings ++ ms.map (fun m => m.booking_id) := by
  intro ms
  induction ms with
  | nil => intro v; simp [commitList]
  | cons m rest ih =>
    intro v
    show (commitList O (assign_booking_to_vehicle O m v) rest).1.assigned_bookings = _
    rw [ih, assign_assigned_bookings]
    simp

theorem completeGate_snd_snd (O : Oracles) (v : VehicleState) (allB : List Booking)
    (v2 : VehicleState) (ids : List ℕ) (clog : List (VehicleState × Booking)) :
    (completeGate O v allB v2 ids clog).2.2 = clog := by
  rcases completeGate_cases O v allB v2 ids clog with h | h <;> rw [h]

theorem complete_vehicle_route_spec (O : Oracles) (v : VehicleState)
    (available descending allB : List Booking) (assigned : List ℕ) :
    ((complete_vehicle_route O v available descending allB assigned).2.1 = []
      ∧ (complete_vehicle_route O v available descending allB assigned).1.assigned_bookings
          = v.assigned_bookings)
    ∨ (∃ ending,
        find_ending_booking O v descending assigned = some ending
        ∧ (complete_vehicle_route O v available descending allB assigned).2.1
            = (find_middle_bookings O v ending available assigned allB).map
                (fun m => m.booking_id) ++ [ending.booking_id]
        ∧ (complete_vehicle_route O v available descending allB assigned).1.assigned_bookings
            = v.assigned_bookings
              ++ (complete_vehicle_route O v available descending allB assigned).2.1) := by
  cases hend : find_ending_booking O v descending assigned with
  | none =>
    rw [complete_vehicle_route_eq_none O v available descending allB assigned hend]
    exact Or.inl ⟨rfl, freshResetAvailable_assigned allB v⟩
  | some ending =>
    rw [complete_vehicle_route_eq_gate O v available descending allB assigned ending hend]
    rcases completeGate_cases O v allB
      (assign_booking_to_vehicle O ending
        (commitList O v (find_middle_bookings O v ending available assigned allB)).1)
      ((find_middle_bookings O v ending available assigned allB).map
          (fun m => m.booking_id) ++ [ending.booking_id])
      ((commitList O v (find_middle_bookings O v ending available assigned allB)).2
        ++ [((commitList O v
              (find_middle_bookings O v ending available assigned allB)).1, ending)])
      with hc | hc
    · rw [hc]
      refine Or.inr ⟨ending, rfl, rfl, ?_⟩
      rw [acceptTail_assigned, assign_assigned_bookings, commitList_assigned]
      simp
    · rw [hc]
      exact Or.inl ⟨rfl, freshResetAvailable_assigned allB v⟩

end Dispatch

namespace Dispatch

/-! ### Commit-time feasibility (the 60-minute grace bound) -/

theorem middleCheck_some_bounds {O : Oracles} {home : Point} {ending : Booking}
    {allB : List Booking} {ta : List ℕ} {ts : TempState} {b : Booking} {d : ℚ}
    (h : middleCheck O home ending allB ta ts b = some d) :
    ts.available_time + calculate_travel_time (O.dist ts.current b.pickup)
      ≤ b.pickup_min + 60
    ∧ (middleAdvance O ts b).available_time
        + calculate_travel_time (O.dist b.drop ending.pickup)
      ≤ ending.pickup_min + 60 := by
  simp only [middleCheck] at h
  split at h
  next h1 =>
    split at h
    next h2 => exact ⟨h1, by simpa [middleAdvance] using h2⟩
    next => exact absurd h (by simp)
  next => exact absurd h (by simp)

theorem assign_le_middleAdvance (O : Oracles) (b : Booking) (v : VehicleState)
    (ts : TempState) (hc : v.current = ts.current)
    (ha : v.available_time ≤ ts.available_time) :
    (assign_booking_to_vehicle O b v).current = (middleAdvance O ts b).current
    ∧ (assign_booking_to_vehicle O b v).available_time
        ≤ (middleAdvance O ts b).available_time := by
  refine ⟨rfl, ?_⟩
  rw [assign_available_time]
  have hadv : (middleAdvance O ts b).available_time
      = max (ts.available_time + calculate_travel_time (O.dist ts.current b.pickup))
          b.pickup_min + b.travel_time.getD 30 + 30 := rfl
  rw [hadv, hc]
  have h2 := getD_zero_le_getD_thirty b.travel_time
  have h3 : max (v.available_time + calculate_travel_time (O.dist ts.current b.pickup))
      b.pickup_min
      ≤ max (ts.available_time + calculate_travel_time (O.dist ts.current b.pickup))
          b.pickup_min := max_le_max (by linarith) (le_refl _)
  linarith

theorem middleLoop_commit_bounds (O : Oracles) (home : Point) (ending : Booking)
    (allB : List Booking) :
    ∀ (fuel : ℕ) (ts : TempState) (ta : List ℕ) (cands : List Booking) (v : VehicleState),
      v.current = ts.current → v.available_time ≤ ts.available_time →
      (∀ p ∈ (commitList O v (middleLoop O home ending allB fuel ts ta cands)).2,
        logFeasible O p)
      ∧ (middleLoop O home ending allB fuel ts ta cands ≠ [] →
          logFeasible O
            ((commitList O v (middleLoop O home ending allB fuel ts ta cands)).1, ending)) := by
  intro fuel
  induction fuel with
  | zero =>
    intro ts ta cands v hc ha
    refine ⟨?_, ?_⟩
    · intro p hp; simp [middleLoop, commitList] at hp
    · intro hne; simp [middleLoop] at hne
  | succ fuel ih =>
    intro ts ta cands v hc ha
    cases hml : middleLoop O home ending allB (fuel+1) ts ta cands with
    | nil =>
      refine ⟨?_, ?_⟩
      · intro p hp; simp [commitList] at hp
      · intro hne; exact absurd rfl hne
    | cons m rest =>
      obtain ⟨k, d, fuel', hf, hget, hchk, hrest⟩ :=
        middleLoop_cons O home ending allB (fuel+1) ts ta cands m rest hml
      have hf' : fuel' = fuel := by omega
      rw [hf'] at hrest
      obtain ⟨hb1, hb2⟩ := middleCheck_some_bounds hchk
      have hinv := assign_le_middleAdvance O m v ts hc ha
      have hih := ih (middleAdvance O ts m) (m.booking_id :: ta) (cands.eraseIdx k)
        (assign_booking_to_vehicle O m v) hinv.1 hinv.2
      have hcl : commitList O v (m :: rest)
          = ((commitList O (assign_booking_to_vehicle O m v) rest).1,
            (v, m) :: (commitList O (assign_booking_to_vehicle O m v) rest).2) := rfl
      refine ⟨?_, ?_⟩
      · intro p hp
        rw [hcl] at hp
        rcases List.mem_cons.mp hp with hp | hp
        · subst hp
          show v.available_time + calculate_travel_time (O.dist v.current m.pickup)
            ≤ m.pickup_min + 60
          rw [hc]
          linarith
        · rw [hrest] at hp
          exact hih.1 p hp
      · intro _
        rw [hcl, hrest]
        by_cases hr : middleLoop O home ending allB fuel (middleAdvance O ts m)
            (m.booking_id :: ta) (cands.eraseIdx k) = []
        · rw [hr]
          show (assign_booking_to_vehicle O m v).available_time
              + calculate_travel_time (O.dist (assign_booking_to_vehicle O m v).current
                  ending.pickup)
            ≤ ending.pickup_min + 60
          rw [assign_current]
          have hle := hinv.2
          linarith
        · exact hih.2 hr

theorem complete_vehicle_route_log (O : Oracles) (v : VehicleState)
    (available descending allB : List Booking) (assigned : List ℕ) :
    ∀ p ∈ (complete_vehicle_route O v available descending allB assigned).2.2,
      logFeasible O p := by
  intro p hp
  cases hend : find_ending_booking O v descending assigned with
  | none =>
    rw [complete_vehicle_route_eq_none O v available descending allB assigned hend] at hp
    simp at hp
  | some ending =>
    rw [complete_vehicle_route_eq_gate O v available descending allB assigned ending hend,
      completeGate_snd_snd] at hp
    have hbase := middleLoop_commit_bounds O v.home ending allB 10
      { current := v.current, available_time := v.available_time, route := v.route }
      (v.assigned_bookings ++ [ending.booking_id])
      (sortByPickup (available.filter (middleWindowFilter v ending assigned))) v rfl (le_refl _)
    rw [← find_middle_bookings_eq O v ending available assigned allB] at hbase
    rcases List.mem_append.mp hp with hp1 | hp1
    · exact hbase.1 p hp1
    · have hpe : p = ((commitList O v
          (find_middle_bookings O v ending available assigned allB)).1, ending) := by
        simpa using hp1
      subst hpe
      by_cases hml : find_middle_bookings O v ending available assigned allB = []
      · rw [hml]
        obtain ⟨hq1, hq2, hq3⟩ := endingQualifies_true (find_ending_booking_some hend).2
        show v.available_time + calculate_travel_time (O.dist v.current ending.pickup)
          ≤ ending.pickup_min + 60
        exact hq2
      · exact hbase.2 hml

end Dispatch

namespace Dispatch

/-! ### Field lemmas for the planner-state transitions -/

theorem recordAttempt_log (st : PState) (e : ℕ × ℕ × Bool) :
    (recordAttempt st e).log = st.log := rfl

theorem recordAttempt_vehicles (st : PState) (e : ℕ × ℕ × Bool) :
    (recordAttempt st e).vehicles = st.vehicles := rfl

theorem recordAttempt_assigned (st : PState) (e : ℕ × ℕ × Bool) :
    (recordAttempt st e).assigned_ids = st.assigned_ids := rfl

theorem recordAttempt_attempts (st : PState) (e : ℕ × ℕ × Bool) :
    (recordAttempt st e).attempts = st.attempts ++ [e] := rfl

theorem commitResult_log (st : PState) (b : Booking) (i : ℕ) (v : VehicleState)
    (r : VehicleState × List ℕ × List (VehicleState × Booking)) :
    (commitResult st b i v r).log = st.log ++ (v, b) :: r.2.2 := by
  unfold commitResult
  split_ifs <;> rfl

theorem commitResult_attempts (st : PState) (b : Booking) (i : ℕ) (v : VehicleState)
    (r : VehicleState × List ℕ × List (VehicleState × Booking)) :
    (commitResult st b i v r).attempts = st.attempts := by
  unfold commitResult
  split_ifs <;> rfl

theorem suitable_logFeasible {O : Oracles} {vehicles : List VehicleState} (b q : Booking)
    (hpk : q.pickup = b.pickup) (hpm : q.pickup_min = b.pickup_min) {iv : ℕ × VehicleState}
    (h : iv ∈ get_suitable_vehicles O vehicles q) :
    logFeasible O (iv.2, b) := by
  have h1 := (suitableBasic_true (get_suitable_vehicles_mem h).2).2.2
  rw [hpk, hpm] at h1
  exact h1

theorem commitFreshAndComplete_log (O : Oracles) (allB descending : List Booking)
    (st : PState) (b : Booking) (i : ℕ) (v : VehicleState)
    (hf : logFeasible O (v, b)) :
    ∃ L, (commitFreshAndComplete O allB descending st b i v).log = st.log ++ L
      ∧ ∀ p ∈ L, logFeasible O p := by
  refine ⟨(v, b) :: (complete_vehicle_route O (assign_booking_to_vehicle O b v)
      (allB.filter (fun x => !((st.assigned_ids ++ [b.booking_id]).contains x.booking_id)))
      descending allB (st.assigned_ids ++ [b.booking_id])).2.2,
    commitResult_log st b i v _, ?_⟩
  intro p hp
  rcases List.mem_cons.mp hp with hp | hp
  · subst hp; exact hf
  · exact complete_vehicle_route_log O _ _ _ _ _ p hp

theorem processCommit_log (O : Oracles) (allB descending : List Booking) (st : PState)
    (b : Booking) (suitable : List (ℕ × VehicleState))
    (hsv : ∀ iv ∈ suitable, logFeasible O (iv.2, b)) :
    ∃ L, (processCommit O allB descending st b suitable).log = st.log ++ L
      ∧ ∀ p ∈ L, logFeasible O p := by
  unfold processCommit
  cases hbv : bestVehicle O allB b suitable with
  | none => exact ⟨[], by simp, by simp⟩
  | some iv =>
    exact commitFreshAndComplete_log O allB descending st b iv.1 iv.2
      (hsv iv (bestVehicle_some hbv))

theorem processBooking_log (O : Oracles) (allB descending : List Booking)
    (st : PState) (b : Booking) :
    ∃ L, (processBooking O allB descending st b).log = st.log ++ L
      ∧ ∀ p ∈ L, logFeasible O p := by
  unfold processBooking
  split_ifs
  · exact ⟨[], by simp, by simp⟩
  · unfold processUpgrade
    obtain ⟨L, hL, hLf⟩ := processCommit_log O allB descending
      (recordAttempt (recordAttempt st (b.booking_id, b.vclass, false))
        (b.booking_id, b.vclass + 1,
          !(get_suitable_vehicles O
              (recordAttempt st (b.booking_id, b.vclass, false)).vehicles
              { b with vclass := b.vclass + 1 }).isEmpty)) b
      (get_suitable_vehicles O (recordAttempt st (b.booking_id, b.vclass, false)).vehicles
        { b with vclass := b.vclass + 1 })
      (fun iv hiv => suitable_logFeasible b { b with vclass := b.vclass + 1 } rfl rfl hiv)
    exact ⟨L, hL, hLf⟩
  · exact ⟨[], by simp [recordAttempt_log], by simp⟩
  · obtain ⟨L, hL, hLf⟩ := processCommit_log O allB descending
      (recordAttempt st (b.booking_id, b.vclass, true)) b
      (get_suitable_vehicles O st.vehicles b)
      (fun iv hiv => suitable_logFeasible b b rfl rfl hiv)
    exact ⟨L, hL, hLf⟩

theorem processLoop_log (O : Oracles) (allB descending : List Booking) :
    ∀ (todo : List Booking) (st : PState),
      (∀ p ∈ st.log, logFeasible O p) →
      ∀ p ∈ (todo.foldl (processBooking O allB descending) st).log, logFeasible O p := by
  intro todo
  induction todo with
  | nil => intro st h p hp; exact h p (by simpa using hp)
  | cons c rest ih =>
    intro st h
    rw [List.foldl_cons]
    apply ih
    intro q hq
    obtain ⟨L, hL, hLf⟩ := processBooking_log O allB descending st c
    rw [hL] at hq
    rcases List.mem_append.mp hq with hq | hq
    · exact h q hq
    · exact hLf q hq

/-- C2: every booking committed to a vehicle by the planner — fresh, middle,
or ending — satisfies the commit-time feasibility bound: the vehicle's
`available_time` just before the commit, plus the travel time to the
booking's pickup, is at most the booking's pickup minute plus the 60-minute
grace window. -/
theorem C2_commit_feasibility (O : Oracles) (vehicles : List VehicleState)
    (bookings : List Booking) (p : VehicleState × Booking)
    (hp : p ∈ (process_bookings_home_oriented O vehicles bookings).log) :
    p.1.available_time + calculate_travel_time (O.dist p.1.current p.2.pickup)
      ≤ p.2.pickup_min + 60 :=
  processLoop_log O bookings (sortByPickup bookings).reverse (sortByPickup bookings)
    { vehicles := vehicles, assigned_ids := [], log := [], attempts := [] }
    (by intro q hq; simp at hq) p hp

end Dispatch
namespace Dispatch

/-- Witness for C2: the feasibility bound applied to the first commit-log
entry of the accepting run `runB` (the fresh commit of `bkB1` to the freshly
initialised vehicle). -/
theorem C2_commit_feasibility_witness :
    (Examples.vehA, Examples.bkB1) ∈ (Examples.runB).log
    ∧ Examples.vehA.available_time
        + calculate_travel_time (Examples.uniformO.dist Examples.vehA.current
            Examples.bkB1.pickup)
      ≤ Examples.bkB1.pickup_min + 60 := by
  have hmem : (Examples.vehA, Examples.bkB1) ∈ (Examples.runB).log := by
    norm_num [Examples.runB, process_bookings_home_oriented, processBooking,
      processCommit, processUpgrade, recordAttempt, commitFreshAndComplete, commitResult,
      commitTouchUp, complete_vehicle_route, completeGate, find_ending_booking,
      endingStrictPass, endingFallbackPass, endingQualifies, find_middle_bookings,
      middleLoop, bestMiddleScan, middleCheck, middleAdvance, middleWindowFilter,
      betterScored, freshResetAvailable, commitList, acceptTail, acceptTailFinal,
      assign_booking_to_vehicle, get_suitable_vehicles, suitableBasic, suitableAtRadius,
      searchFrom, bestVehicle, bestVehicleScan, calculate_ddm, ddmInterLegs,
      calculate_active_km, bookingMatches, near, sortByPickup, insertByPickup,
      is_vehicle_available_for_booking, calculate_travel_time, deadKmOpen, interLegs,
      activePayGet, deadPayGet, active_driver_pay, dead_driver_pay, finalizeVehicle,
      initialize_vehicle, Examples.uniformO, Examples.bkB1, Examples.bkBE, Examples.vehA,
      Examples.H, Examples.pk1, Examples.dr1, Examples.pkE, Examples.drE,
      Point.mk.injEq, Booking.mk.injEq, VehicleState.mk.injEq, Prod.mk.injEq,
      List.enum, List.enumFrom]
  exact ⟨hmem, C2_commit_feasibility Examples.uniformO [Examples.vehA]
    [Examples.bkB1, Examples.bkBE] (Examples.vehA, Examples.bkB1) hmem⟩

end Dispatch

namespace Dispatch

/-! ### Bookkeeping of the fleet-wide assigned-booking ids -/

theorem vehIds_cons (v : VehicleState) (vs : List VehicleState) :
    vehIds (v :: vs) = v.assigned_bookings ++ vehIds vs := by
  simp [vehIds]

theorem vehIds_append (l1 l2 : List VehicleState) :
    vehIds (l1 ++ l2) = vehIds l1 ++ vehIds l2 := by
  simp [vehIds]

theorem vehIds_eq_nil {vs : List VehicleState} (h : ∀ v ∈ vs, v.assigned_bookings = []) :
    vehIds vs = [] := by
  induction vs with
  | nil => rfl
  | cons v rest ih =>
    rw [vehIds_cons, h v (List.mem_cons_self v rest),
      ih (fun w hw => h w (List.mem_cons_of_mem v hw))]
    rfl

theorem vehIds_map_finalize (O : Oracles) (vs : List VehicleState) :
    vehIds (vs.map (finalizeVehicle O)) = vehIds vs := by
  simp [vehIds, List.map_map, Function.comp_def, finalizeVehicle_assigned]

theorem vehIds_set_append {vs : List VehicleState} {i : ℕ} {v w : VehicleState} {A : List ℕ}
    (hget : vs.get? i = some v) (hw : w.assigned_bookings = v.assigned_bookings ++ A) :
    (vehIds (vs.set i w)).Perm (vehIds vs ++ A) := by
  have hi : i < vs.length := by
    by_contra hlt
    push_neg at hlt
    rw [List.get?_eq_getElem?, List.getElem?_eq_none hlt] at hget
    simp at hget
  have hvi : vs[i] = v := by
    rw [List.get?_eq_getElem?, List.getElem?_eq_getElem hi] at hget
    exact Option.some.inj hget
  have hsplit : vs = vs.take i ++ v :: vs.drop (i+1) := by
    rw [← hvi, ← List.drop_eq_getElem_cons hi]
    exact (List.take_append_drop i vs).symm
  have hset : vs.set i w = vs.take i ++ w :: vs.drop (i+1) := by
    rw [List.set_eq_take_append_cons_drop]
    simp [hi]
  rw [hset]
  conv_rhs => rw [hsplit]
  rw [vehIds_append, vehIds_cons, vehIds_append, vehIds_cons, hw]
  apply List.perm_iff_count.mpr
  intro a
  simp [List.count_append]
  omega

theorem commitTouchUp_assigned (c : Booking) (w : VehicleState) :
    (commitTouchUp c w).assigned_bookings = w.assigned_bookings := by
  unfold commitTouchUp
  split_ifs <;> rfl

theorem commitResult_assigned (st : PState) (c : Booking) (i : ℕ) (v : VehicleState)
    (r : VehicleState × List ℕ × List (VehicleState × Booking)) :
    (commitResult st c i v r).assigned_ids
      = st.assigned_ids ++ c.booking_id :: r.2.1 := by
  unfold commitResult
  split_ifs with h
  · rw [List.isEmpty_iff.mp h]
  · simp

theorem commitResult_vehicles (st : PState) (c : Booking) (i : ℕ) (v : VehicleState)
    (r : VehicleState × List ℕ × List (VehicleState × Booking)) :
    (commitResult st c i v r).vehicles
      = st.vehicles.set i (if r.2.1.isEmpty then commitTouchUp c r.1 else r.1) := by
  unfold commitResult
  split_ifs with h <;> simp [h]

end Dispatch


namespace Dispatch

theorem commitResult_vehicles_nil (st : PState) (c : Booking) (i : ℕ) (v : VehicleState)
    (r : VehicleState × List ℕ × List (VehicleState × Booking)) (h : r.2.1 = []) :
    (commitResult st c i v r).vehicles = st.vehicles.set i (commitTouchUp c r.1) := by
  unfold commitResult
  rw [if_pos (List.isEmpty_iff.mpr h)]

theorem commitResult_vehicles_ne (st : PState) (c : Booking) (i : ℕ) (v : VehicleState)
    (r : VehicleState × List ℕ × List (VehicleState × Booking)) (h : r.2.1 ≠ []) :
    (commitResult st c i v r).vehicles = st.vehicles.set i r.1 := by
  unfold commitResult
  rw [if_neg (fun hh => h (List.isEmpty_iff.mp hh))]

/-- The id bookkeeping of one fresh commit followed by its route completion:
the fresh id plus the completion's extra ids are appended to the global set,
all of them new, each extra id belongs to a booking of the table whose pickup
lies at least 30 minutes after the fresh booking's pickup (for non-negative
ride times), and the same ids land in the chosen vehicle's list. -/
theorem commitFreshAndComplete_partition (O : Oracles) (allB descending : List Booking)
    (st : PState) (c : Booking) (i : ℕ) (v : VehicleState)
    (hids : (allB.map (fun b => b.booking_id)).Nodup)
    (hdesc : ∀ x ∈ descending, x ∈ allB)
    (hget : st.vehicles.get? i = some v)
    (hcnm : c.booking_id ∉ st.assigned_ids) :
    ∃ N : List ℕ,
      (commitFreshAndComplete O allB descending st c i v).assigned_ids
        = st.assigned_ids ++ c.booking_id :: N
      ∧ (c.booking_id :: N).Nodup
      ∧ (∀ a ∈ N, a ∉ st.assigned_ids)
      ∧ (∀ a ∈ N, ∃ x ∈ allB, x.booking_id = a
          ∧ (0 ≤ c.travel_time.getD 0 → c.pickup_min + 30 ≤ x.pickup_min))
      ∧ (vehIds (commitFreshAndComplete O allB descending st c i v).vehicles).Perm
          (vehIds st.vehicles ++ c.booking_id :: N)
      ∧ (commitFreshAndComplete O allB descending st c i v).attempts = st.attempts := by
  have heq : commitFreshAndComplete O allB descending st c i v
      = commitResult st c i v
          (complete_vehicle_route O (assign_booking_to_vehicle O c v)
            (allB.filter
              (fun x => !((st.assigned_ids ++ [c.booking_id]).contains x.booking_id)))
            descending allB (st.assigned_ids ++ [c.booking_id])) := rfl
  rcases complete_vehicle_route_spec O (assign_booking_to_vehicle O c v)
      (allB.filter (fun x => !((st.assigned_ids ++ [c.booking_id]).contains x.booking_id)))
      descending allB (st.assigned_ids ++ [c.booking_id])
    with ⟨hN, hass⟩ | ⟨ending, hend, hN, hass⟩
  · refine ⟨[], ?_, by simp, by simp, by simp, ?_, ?_⟩
    · rw [heq, commitResult_assigned, hN]
    · rw [heq, commitResult_vehicles_nil _ _ _ _ _ hN]
      exact vehIds_set_append hget
        (by rw [commitTouchUp_assigned, hass, assign_assigned_bookings])
    · rw [heq, commitResult_attempts]
  · have hmid : ∀ m ∈ find_middle_bookings O (assign_booking_to_vehicle O c v) ending
        (allB.filter (fun x => !((st.assigned_ids ++ [c.booking_id]).contains x.booking_id)))
        (st.assigned_ids ++ [c.booking_id]) allB,
        m ∈ allB ∧ m.booking_id ∉ st.assigned_ids ++ [c.booking_id]
        ∧ m.booking_id ≠ ending.booking_id
        ∧ (0 ≤ c.travel_time.getD 0 → c.pickup_min + 30 ≤ m.pickup_min) := by
      intro m hm
      obtain ⟨hav, hwf⟩ := find_middle_bookings_mem O _ ending _ _ allB m hm
      obtain ⟨hw1, hw2, hw3, hw4⟩ := middleWindowFilter_true hwf
      refine ⟨(List.mem_filter.mp hav).1, hw1, hw2, ?_⟩
      intro htt
      have h2 := assign_available_ge O c v htt
      linarith
    have hendm : ending ∈ allB
        ∧ ending.booking_id ∉ st.assigned_ids ++ [c.booking_id]
        ∧ (0 ≤ c.travel_time.getD 0 → c.pickup_min + 30 ≤ ending.pickup_min) := by
      obtain ⟨hmem, hq⟩ := find_ending_booking_some hend
      obtain ⟨hq1, hq2, hq3⟩ := endingQualifies_true hq
      refine ⟨hdesc ending hmem, hq1, ?_⟩
      intro htt
      have h2 := assign_available_ge O c v htt
      linarith
    have hmnd : ((find_middle_bookings O (assign_booking_to_vehicle O c v) ending
        (allB.filter (fun x => !((st.assigned_ids ++ [c.booking_id]).contains x.booking_id)))
        (st.assigned_ids ++ [c.booking_id]) allB).map (fun m => m.booking_id)).Nodup := by
      apply find_middle_bookings_nodup
      exact ((List.filter_sublist allB).map (fun b => b.booking_id)).nodup hids
    refine ⟨(complete_vehicle_route O (assign_booking_to_vehicle O c v)
        (allB.filter (fun x => !((st.assigned_ids ++ [c.booking_id]).contains x.booking_id)))
        descending allB (st.assigned_ids ++ [c.booking_id])).2.1, ?_, ?_, ?_, ?_, ?_, ?_⟩
    · rw [heq, commitResult_assigned]
    · rw [hN, List.nodup_cons]
      constructor
      · intro hc
        rcases List.mem_append.mp hc with hc | hc
        · obtain ⟨m, hm, hme⟩ := List.mem_map.mp hc
          exact (hmid m hm).2.1 (by rw [hme]; simp)
        · have hce : c.booking_id = ending.booking_id := by simpa using hc
          exact hendm.2.1 (by rw [← hce]; simp)
      · refine List.Nodup.append hmnd (by simp) ?_
        intro a ha hb
        obtain ⟨m, hm, rfl⟩ := List.mem_map.mp ha
        exact (hmid m hm).2.2.1 (by simpa using hb)
    · intro a ha
      rw [hN] at ha
      rcases List.mem_append.mp ha with ha | ha
      · obtain ⟨m, hm, rfl⟩ := List.mem_map.mp ha
        exact fun hmem => (hmid m hm).2.1 (List.mem_append.mpr (Or.inl hmem))
      · have haa : a = ending.booking_id := by simpa using ha
        subst haa
        exact fun hmem => hendm.2.1 (List.mem_append.mpr (Or.inl hmem))
    · intro a ha
      rw [hN] at ha
      rcases List.mem_append.mp ha with ha | ha
      · obtain ⟨m, hm, rfl⟩ := List.mem_map.mp ha
        exact ⟨m, (hmid m hm).1, rfl, (hmid m hm).2.2.2⟩
      · have haa : a = ending.booking_id := by simpa using ha
        subst haa
        exact ⟨ending, hendm.1, rfl, hendm.2.2⟩
    · have hne : (complete_vehicle_route O (assign_booking_to_vehicle O c v)
          (allB.filter
            (fun x => !((st.assigned_ids ++ [c.booking_id]).contains x.booking_id)))
          descending allB (st.assigned_ids ++ [c.booking_id])).2.1 ≠ [] := by
        rw [hN]; simp
      rw [heq, commitResult_vehicles_ne _ _ _ _ _ hne]
      refine vehIds_set_append hget ?_
      rw [hass, assign_assigned_bookings]
      simp
    · rw [heq, commitResult_attempts]

end Dispatch

namespace Dispatch

theorem failedFinal_single (e : ℕ × ℕ × Bool) : failedFinal [e] = !e.2.2 := rfl

theorem failedFinal_pair (e1 e2 : ℕ × ℕ × Bool) : failedFinal [e1, e2] = !e2.2.2 := rfl

theorem processCommit_partition (O : Oracles) (allB descending : List Booking)
    (st : PState) (c : Booking) (suitable : List (ℕ × VehicleState))
    (hids : (allB.map (fun b => b.booking_id)).Nodup)
    (hdesc : ∀ x ∈ descending, x ∈ allB)
    (hsv : ∀ iv ∈ suitable, st.vehicles.get? iv.1 = some iv.2)
    (hcnm : c.booking_id ∉ st.assigned_ids) :
    ∃ A : List ℕ,
      (processCommit O allB descending st c suitable).assigned_ids = st.assigned_ids ++ A
      ∧ A.Nodup
      ∧ (∀ a ∈ A, a ∉ st.assigned_ids)
      ∧ (∀ a ∈ A, a = c.booking_id ∨ ∃ x ∈ allB, x.booking_id = a
          ∧ (0 ≤ c.travel_time.getD 0 → c.pickup_min + 30 ≤ x.pickup_min))
      ∧ (vehIds (processCommit O allB descending st c suitable).vehicles).Perm
          (vehIds st.vehicles ++ A)
      ∧ (processCommit O allB descending st c suitable).attempts = st.attempts
      ∧ (suitable = [] → A = []) := by
  cases hbv : bestVehicle O allB c suitable with
  | none =>
    have hpc : processCommit O allB descending st c suitable = st := by
      unfold processCommit
      rw [hbv]
    rw [hpc]
    exact ⟨[], by simp, by simp, by simp, by simp, by simp, rfl, fun _ => rfl⟩
  | some iv =>
    have hpc : processCommit O allB descending st c suitable
        = commitFreshAndComplete O allB descending st c iv.1 iv.2 := by
      unfold processCommit
      rw [hbv]
    rw [hpc]
    obtain ⟨N, h1, h2, h3, h4, h5, h6⟩ :=
      commitFreshAndComplete_partition O allB descending st c iv.1 iv.2 hids hdesc
        (hsv iv (bestVehicle_some hbv)) hcnm
    refine ⟨c.booking_id :: N, h1, h2, ?_, ?_, h5, h6, ?_⟩
    · intro a ha
      rcases List.mem_cons.mp ha with rfl | ha
      · exact hcnm
      · exact h3 a ha
    · intro a ha
      rcases List.mem_cons.mp ha with rfl | ha
      · exact Or.inl rfl
      · exact Or.inr (h4 a ha)
    · intro hse
      have hm := bestVehicle_some hbv
      rw [hse] at hm
      simp at hm

theorem processBooking_step (O : Oracles) (allB descending : List Booking)
    (st : PState) (c : Booking)
    (hids : (allB.map (fun b => b.booking_id)).Nodup)
    (hdesc : ∀ x ∈ descending, x ∈ allB) :
    ∃ (A : List ℕ) (chunk : List (ℕ × ℕ × Bool)),
      (processBooking O allB descending st c).assigned_ids = st.assigned_ids ++ A
      ∧ (processBooking O allB descending st c).attempts = st.attempts ++ chunk
      ∧ (vehIds (processBooking O allB descending st c).vehicles).Perm
          (vehIds st.vehicles ++ A)
      ∧ A.Nodup
      ∧ (∀ a ∈ A, a ∉ st.assigned_ids)
      ∧ (∀ a ∈ A, a = c.booking_id ∨ ∃ x ∈ allB, x.booking_id = a
          ∧ (0 ≤ c.travel_time.getD 0 → c.pickup_min + 30 ≤ x.pickup_min))
      ∧ (∀ e ∈ chunk, e.1 = c.booking_id)
      ∧ (c.booking_id ∈ st.assigned_ids → A = [] ∧ chunk = [])
      ∧ (c.booking_id ∉ st.assigned_ids → ShapeOK c chunk)
      ∧ (failedFinal chunk = true → A = []) := by
  by_cases h1 : st.assigned_ids.contains c.booking_id
  · have hpb : processBooking O allB descending st c = st := by
      unfold processBooking
      rw [if_pos h1]
    rw [hpb]
    exact ⟨[], [], by simp, by simp, by simp, by simp, by simp, by simp, by simp,
      fun _ => ⟨rfl, rfl⟩, fun _ => Or.inl rfl, fun _ => rfl⟩
  · have hcnm : c.booking_id ∉ st.assigned_ids :=
      fun hm => h1 (contains_eq_true_iff.mpr hm)
    by_cases h2 : (get_suitable_vehicles O st.vehicles c).isEmpty
    · by_cases h3 : c.vclass < 9
      · have hpb : processBooking O allB descending st c
            = processCommit O allB descending
                (recordAttempt (recordAttempt st (c.booking_id, c.vclass, false))
                  (c.booking_id, c.vclass + 1,
                    !(get_suitable_vehicles O
                        (recordAttempt st (c.booking_id, c.vclass, false)).vehicles
                        { c with vclass := c.vclass + 1 }).isEmpty)) c
                (get_suitable_vehicles O
                  (recordAttempt st (c.booking_id, c.vclass, false)).vehicles
                  { c with vclass := c.vclass + 1 }) := by
          unfold processBooking processUpgrade
          rw [if_neg h1, if_pos h2, if_pos h3]
        rw [hpb]
        obtain ⟨A, ha, hnd, hnotin, horig, hperm, hatt, hsuitnil⟩ :=
          processCommit_partition O allB descending
            (recordAttempt (recordAttempt st (c.booking_id, c.vclass, false))
              (c.booking_id, c.vclass + 1,
                !(get_suitable_vehicles O
                    (recordAttempt st (c.booking_id, c.vclass, false)).vehicles
                    { c with vclass := c.vclass + 1 }).isEmpty)) c
            (get_suitable_vehicles O
              (recordAttempt st (c.booking_id, c.vclass, false)).vehicles
              { c with vclass := c.vclass + 1 })
            hids hdesc (fun iv hiv => (get_suitable_vehicles_mem hiv).1) hcnm
        refine ⟨A, [(c.booking_id, c.vclass, false),
            (c.booking_id, c.vclass + 1,
              !(get_suitable_vehicles O
                  (recordAttempt st (c.booking_id, c.vclass, false)).vehicles
                  { c with vclass := c.vclass + 1 }).isEmpty)],
          ha, ?_, hperm, hnd, hnotin, horig, ?_,
          fun hm => absurd hm hcnm,
          fun _ => Or.inr (Or.inr (Or.inl ⟨h3, _, rfl⟩)), ?_⟩
        · rw [hatt]
          simp [recordAttempt]
        · intro e he
          rcases List.mem_cons.mp he with rfl | he
          · rfl
          · have he2 : e = (c.booking_id, c.vclass + 1,
                !(get_suitable_vehicles O
                    (recordAttempt st (c.booking_id, c.vclass, false)).vehicles
                    { c with vclass := c.vclass + 1 }).isEmpty) := by simpa using he
            rw [he2]
        · intro hff
          rw [failedFinal_pair] at hff
          simp only [Bool.not_not] at hff
          exact hsuitnil (List.isEmpty_iff.mp hff)
      · have hpb : processBooking O allB descending st c
            = recordAttempt st (c.booking_id, c.vclass, false) := by
          unfold processBooking
          rw [if_neg h1, if_pos h2, if_neg h3]
        rw [hpb]
        refine ⟨[], [(c.booking_id, c.vclass, false)],
          by simp [recordAttempt], by simp [recordAttempt], by simp [recordAttempt],
          by simp, by simp, by simp, ?_,
          fun hm => absurd hm hcnm,
          fun _ => Or.inr (Or.inr (Or.inr ⟨h3, rfl⟩)), fun _ => rfl⟩
        intro e he
        have he1 : e = (c.booking_id, c.vclass, false) := by simpa using he
        rw [he1]
    · have hpb : processBooking O allB descending st c
          = processCommit O allB descending
              (recordAttempt st (c.booking_id, c.vclass, true)) c
              (get_suitable_vehicles O st.vehicles c) := by
        unfold processBooking
        rw [if_neg h1, if_neg h2]
      rw [hpb]
      obtain ⟨A, ha, hnd, hnotin, horig, hperm, hatt, _⟩ :=
        processCommit_partition O allB descending
          (recordAttempt st (c.booking_id, c.vclass, true)) c
          (get_suitable_vehicles O st.vehicles c) hids hdesc
          (fun iv hiv => (get_suitable_vehicles_mem hiv).1) hcnm
      refine ⟨A, [(c.booking_id, c.vclass, true)], ha, ?_, hperm, hnd, hnotin, horig, ?_,
        fun hm => absurd hm hcnm, fun _ => Or.inr (Or.inl rfl), ?_⟩
      · rw [hatt]
        simp [recordAttempt]
      · intro e he
        have he1 : e = (c.booking_id, c.vclass, true) := by simpa using he
        rw [he1]
      · intro hff
        rw [failedFinal_single] at hff
        simp at hff

end Dispatch

namespace Dispatch

theorem processLoop_partition (O : Oracles) (allB descending : List Booking)
    (hids : (allB.map (fun b => b.booking_id)).Nodup)
    (hdesc : ∀ x ∈ descending, x ∈ allB) :
    ∀ (todo : List Booking) (st : PState),
      (∀ x ∈ todo, x ∈ allB) →
      st.assigned_ids.Nodup →
      (∀ a ∈ st.assigned_ids, a ∈ allB.map (fun b => b.booking_id)) →
      (vehIds st.vehicles).Perm st.assigned_ids →
      (todo.foldl (processBooking O allB descending) st).assigned_ids.Nodup
      ∧ (∀ a ∈ (todo.foldl (processBooking O allB descending) st).assigned_ids,
          a ∈ allB.map (fun b => b.booking_id))
      ∧ (vehIds (todo.foldl (processBooking O allB descending) st).vehicles).Perm
          (todo.foldl (processBooking O allB descending) st).assigned_ids := by
  intro todo
  induction todo with
  | nil => intro st _ h1 h2 h3; exact ⟨h1, h2, h3⟩
  | cons c rest ih =>
    intro st htodo h1 h2 h3
    rw [List.foldl_cons]
    obtain ⟨A, chunk, ha, hatt, hperm, hnd, hnotin, horig, _, _, _, _⟩ :=
      processBooking_step O allB descending st c hids hdesc
    apply ih
    · intro x hx
      exact htodo x (List.mem_cons_of_mem c hx)
    · rw [ha]
      exact List.Nodup.append h1 hnd (fun a haS haA => hnotin a haA haS)
    · rw [ha]
      intro a haa
      rcases List.mem_append.mp haa with h | h
      · exact h2 a h
      · rcases horig a h with rfl | ⟨x, hx, hxa, _⟩
        · exact List.mem_map.mpr ⟨c, htodo c (List.mem_cons_self c rest), rfl⟩
        · exact List.mem_map.mpr ⟨x, hx, hxa⟩
    · rw [ha]
      exact hperm.trans (h3.append_right A)

/-- C1: for a planner run over a fresh fleet and a booking list with distinct
ids, no booking id appears in more than one vehicle's `assigned_bookings`
(nor twice in the same vehicle's list), the assigned ids are exactly the
input ids not listed as unassigned, and every unassigned booking comes from
the input list. -/
theorem C1_booking_partition (O : Oracles) (vehicles : List VehicleState)
    (bookings : List Booking)
    (hids : (bookings.map (fun b => b.booking_id)).Nodup)
    (hv : ∀ v ∈ vehicles, v.assigned_bookings = []) :
    (vehIds (process_bookings_home_oriented O vehicles bookings).vehicles).Nodup
    ∧ (∀ i, i ∈ vehIds (process_bookings_home_oriented O vehicles bookings).vehicles
        ↔ i ∈ bookings.map (fun b => b.booking_id)
          ∧ i ∉ (process_bookings_home_oriented O vehicles bookings).unassigned_bookings.map
              (fun b => b.booking_id))
    ∧ ∀ b ∈ (process_bookings_home_oriented O vehicles bookings).unassigned_bookings,
        b ∈ bookings := by
  obtain ⟨hnd, hsub, hperm⟩ :=
    processLoop_partition O bookings (sortByPickup bookings).reverse hids
      (fun x hx => sortByPickup_mem.mp (List.mem_reverse.mp hx))
      (sortByPickup bookings)
      { vehicles := vehicles, assigned_ids := [], log := [], attempts := [] }
      (fun x hx => sortByPickup_mem.mp hx)
      (by simp)
      (by intro a ha; simp at ha)
      (by rw [vehIds_eq_nil hv])
  have hvv : vehIds (process_bookings_home_oriented O vehicles bookings).vehicles
      = vehIds ((sortByPickup bookings).foldl
          (processBooking O bookings (sortByPickup bookings).reverse)
          { vehicles := vehicles, assigned_ids := [], log := [], attempts := [] }).vehicles :=
    vehIds_map_finalize O _
  have hun : (process_bookings_home_oriented O vehicles bookings).unassigned_bookings
      = bookings.filter (fun b =>
          !(((sortByPickup bookings).foldl
              (processBooking O bookings (sortByPickup bookings).reverse)
              { vehicles := vehicles, assigned_ids := [],
                log := [], attempts := [] }).assigned_ids.contains b.booking_id)) := rfl
  refine ⟨?_, ?_, ?_⟩
  · rw [hvv]
    exact hperm.nodup_iff.mpr hnd
  · intro i
    rw [hvv, hperm.mem_iff, hun]
    constructor
    · intro hi
      refine ⟨hsub i hi, ?_⟩
      intro hmem
      obtain ⟨b, hb, hbi⟩ := List.mem_map.mp hmem
      obtain ⟨_, hbc⟩ := List.mem_filter.mp hb
      rw [hbi] at hbc
      simp only [Bool.not_eq_true'] at hbc
      exact (contains_eq_false_iff.mp hbc) hi
    · rintro ⟨hin, hnot⟩
      by_contra hi
      apply hnot
      obtain ⟨b, hb, hbi⟩ := List.mem_map.mp hin
      refine List.mem_map.mpr ⟨b, ?_, hbi⟩
      refine List.mem_filter.mpr ⟨hb, ?_⟩
      rw [hbi]
      simp only [Bool.not_eq_true']
      exact contains_eq_false_iff.mpr hi
  · intro b hb
    rw [hun] at hb
    exact (List.filter_sublist bookings).subset hb

end Dispatch

namespace Dispatch

/-- Witness for C1: the partition property applied to the concrete accepting
run `runB` (one vehicle, two bookings with distinct ids). -/
theorem C1_booking_partition_witness :
    (vehIds (Examples.runB).vehicles).Nodup
    ∧ (∀ i, i ∈ vehIds (Examples.runB).vehicles
        ↔ i ∈ [Examples.bkB1, Examples.bkBE].map (fun b => b.booking_id)
          ∧ i ∉ (Examples.runB).unassigned_bookings.map (fun b => b.booking_id))
    ∧ ∀ b ∈ (Examples.runB).unassigned_bookings, b ∈ [Examples.bkB1, Examples.bkBE] :=
  C1_booking_partition Examples.uniformO [Examples.vehA] [Examples.bkB1, Examples.bkBE]
    (by decide)
    (by
      intro v hvv
      rw [List.mem_singleton] at hvv
      rw [hvv]
      rfl)

end Dispatch

namespace Dispatch

/-! ### The attempt record of each booking -/

theorem insertByPickup_pairwise (b : Booking) :
    ∀ (l : List Booking), List.Pairwise (fun x y => x.pickup_min ≤ y.pickup_min) l →
      List.Pairwise (fun x y => x.pickup_min ≤ y.pickup_min) (insertByPickup b l) := by
  intro l
  induction l with
  | nil => intro _; simp [insertByPickup]
  | cons x xs ih =>
    intro h
    rw [List.pairwise_cons] at h
    unfold insertByPickup
    by_cases hx : x.pickup_min < b.pickup_min
    · rw [if_pos hx, List.pairwise_cons]
      refine ⟨?_, ih h.2⟩
      intro y hy
      have hy2 := (insertByPickup_perm b xs).mem_iff.mp hy
      rcases List.mem_cons.mp hy2 with rfl | hy3
      · linarith
      · exact h.1 y hy3
    · rw [if_neg hx]
      push_neg at hx
      rw [List.pairwise_cons]
      refine ⟨?_, List.pairwise_cons.mpr h⟩
      intro y hy
      rcases List.mem_cons.mp hy with rfl | hy2
      · exact hx
      · have := h.1 y hy2
        linarith

theorem sortByPickup_sorted (l : List Booking) :
    List.Pairwise (fun x y => x.pickup_min ≤ y.pickup_min) (sortByPickup l) := by
  unfold sortByPickup
  induction l with
  | nil => simp
  | cons x xs ih =>
    rw [List.foldr_cons]
    exact insertByPickup_pairwise x _ ih

theorem attemptsFor_append (l1 l2 : List (ℕ × ℕ × Bool)) (i : ℕ) :
    attemptsFor (l1 ++ l2) i = attemptsFor l1 i ++ attemptsFor l2 i := by
  simp [attemptsFor]

theorem attemptsFor_owner {chunk : List (ℕ × ℕ × Bool)} {i : ℕ}
    (h : ∀ e ∈ chunk, e.1 = i) : attemptsFor chunk i = chunk := by
  unfold attemptsFor
  apply List.filter_eq_self.mpr
  intro e he
  simp [h e he]

theorem attemptsFor_other {chunk : List (ℕ × ℕ × Bool)} {i : ℕ}
    (h : ∀ e ∈ chunk, e.1 ≠ i) : attemptsFor chunk i = [] := by
  unfold attemptsFor
  apply List.filter_eq_nil.mpr
  intro e he
  simp [h e he]

theorem booking_id_inj {allB : List Booking}
    (hids : (allB.map (fun b => b.booking_id)).Nodup)
    {x y : Booking} (hx : x ∈ allB) (hy : y ∈ allB)
    (hxy : x.booking_id = y.booking_id) : x = y :=
  List.inj_on_of_nodup_map hids hx hy hxy

theorem processLoop_preserve (O : Oracles) (allB descending : List Booking)
    (hids : (allB.map (fun b => b.booking_id)).Nodup)
    (hdesc : ∀ x ∈ descending, x ∈ allB)
    (b : Booking) (hb : b ∈ allB) :
    ∀ (todo : List Booking) (st : PState),
      (∀ x ∈ todo, 0 ≤ x.travel_time.getD 0) →
      (∀ x ∈ todo, b.pickup_min ≤ x.pickup_min) →
      (∀ x ∈ todo, x.booking_id ≠ b.booking_id) →
      attemptsFor ((todo.foldl (processBooking O allB descending) st).attempts) b.booking_id
        = attemptsFor st.attempts b.booking_id
      ∧ (b.booking_id ∉ st.assigned_ids →
          b.booking_id ∉ (todo.foldl (processBooking O allB descending) st).assigned_ids) := by
  intro todo
  induction todo with
  | nil => intro st _ _ _; exact ⟨rfl, fun h => h⟩
  | cons c rest ih =>
    intro st htt hpk hid
    rw [List.foldl_cons]
    obtain ⟨A, chunk, ha, hatt, _, _, _, horig, hchunk, _, _, _⟩ :=
      processBooking_step O allB descending st c hids hdesc
    obtain ⟨ih1, ih2⟩ := ih (processBooking O allB descending st c)
      (fun x hx => htt x (List.mem_cons_of_mem c hx))
      (fun x hx => hpk x (List.mem_cons_of_mem c hx))
      (fun x hx => hid x (List.mem_cons_of_mem c hx))
    constructor
    · have hother : attemptsFor chunk b.booking_id = [] :=
        attemptsFor_other
          (fun e he => by
            rw [hchunk e he]
            exact hid c (List.mem_cons_self c rest))
      rw [ih1, hatt, attemptsFor_append, hother, List.append_nil]
    · intro hnm
      apply ih2
      rw [ha]
      intro hmem
      rcases List.mem_append.mp hmem with h | h
      · exact hnm h
      · rcases horig b.booking_id h with heq | ⟨x, hx, hxa, hbound⟩
        · exact hid c (List.mem_cons_self c rest) heq.symm
        · have hxb : x = b := booking_id_inj hids hx hb hxa
          have hbnd := hbound (htt c (List.mem_cons_self c rest))
          rw [hxb] at hbnd
          have hcp := hpk c (List.mem_cons_self c rest)
          linarith

theorem processLoop_attempts (O : Oracles) (allB descending : List Booking)
    (hids : (allB.map (fun b => b.booking_id)).Nodup)
    (hdesc : ∀ x ∈ descending, x ∈ allB)
    (b : Booking) (hb : b ∈ allB) :
    ∀ (todo : List Booking) (st : PState),
      (∀ x ∈ todo, 0 ≤ x.travel_time.getD 0) →
      List.Pairwise (fun x y => x.pickup_min ≤ y.pickup_min) todo →
      ((todo.map (fun x => x.booking_id)).Nodup) →
      attemptsFor st.attempts b.booking_id = [] →
      b ∈ todo →
      ShapeOK b (attemptsFor ((todo.foldl (processBooking O allB descending) st).attempts)
        b.booking_id)
      ∧ (failedFinal (attemptsFor
            ((todo.foldl (processBooking O allB descending) st).attempts) b.booking_id) = true
          → b.booking_id ∉ (todo.foldl (processBooking O allB descending) st).assigned_ids) := by
  intro todo
  induction todo with
  | nil => intro st _ _ _ _ hbin; simp at hbin
  | cons c rest ih =>
    intro st htt hsort hnd hpre hbin
    rw [List.foldl_cons]
    obtain ⟨A, chunk, ha, hatt, _, _, _, _, hchunk, hmem8, hshape9, hfail10⟩ :=
      processBooking_step O allB descending st c hids hdesc
    rcases List.mem_cons.mp hbin with hcb | hbrest
    · rw [hcb] at hpre ⊢
      have hbc : c ∈ allB := hcb ▸ hb
      have hidsrest : ∀ x ∈ rest, x.booking_id ≠ c.booking_id := by
        intro x hx hxe
        rw [List.map_cons, List.nodup_cons] at hnd
        exact hnd.1 (List.mem_map.mpr ⟨x, hx, hxe⟩)
      obtain ⟨pres_att, pres_ass⟩ := processLoop_preserve O allB descending hids hdesc c hbc
        rest (processBooking O allB descending st c)
        (fun x hx => htt x (List.mem_cons_of_mem c hx))
        (fun x hx => (List.pairwise_cons.mp hsort).1 x hx)
        hidsrest
      have hcur : attemptsFor (processBooking O allB descending st c).attempts c.booking_id
          = chunk := by
        rw [hatt, attemptsFor_append, hpre, List.nil_append]
        exact attemptsFor_owner hchunk
      refine ⟨?_, ?_⟩
      · rw [pres_att, hcur]
        by_cases hbm : c.booking_id ∈ st.assigned_ids
        · rw [(hmem8 hbm).2]
          exact Or.inl rfl
        · exact hshape9 hbm
      · intro hff
        rw [pres_att, hcur] at hff
        by_cases hbm : c.booking_id ∈ st.assigned_ids
        · rw [(hmem8 hbm).2] at hff
          simp [failedFinal] at hff
        · apply pres_ass
          rw [ha, hfail10 hff, List.append_nil]
          exact hbm
    · have hcid : c.booking_id ≠ b.booking_id := by
        intro he
        rw [List.map_cons, List.nodup_cons] at hnd
        exact hnd.1 (List.mem_map.mpr ⟨b, hbrest, he.symm⟩)
      have hpre2 : attemptsFor (processBooking O allB descending st c).attempts b.booking_id
          = [] := by
        rw [hatt, attemptsFor_append, hpre, List.nil_append]
        exact attemptsFor_other (fun e he => by rw [hchunk e he]; exact hcid)
      refine ih (processBooking O allB descending st c)
        (fun x hx => htt x (List.mem_cons_of_mem c hx))
        (List.pairwise_cons.mp hsort).2
        ?_ hpre2 hbrest
      rw [List.map_cons, List.nodup_cons] at hnd
      exact hnd.2

end Dispatch

namespace Dispatch

/-- C8: for a booking list with distinct ids and non-negative ride times,
every booking's candidate-query record has one of the legal shapes — left
untried (only possible when it was already absorbed into a route), found at
its own class, failed at its own class and retried exactly once at the next
class (only when the class is below 9), or failed at class ≥ 9 with no
retry — and a booking whose final query failed ends the run in the
`unassigned_bookings` list. -/
theorem C8_class_upgrade_retry (O : Oracles) (vehicles : List VehicleState)
    (bookings : List Booking)
    (hids : (bookings.map (fun b => b.booking_id)).Nodup)
    (htt : ∀ x ∈ bookings, 0 ≤ x.travel_time.getD 0)
    (b : Booking) (hb : b ∈ bookings) :
    ShapeOK b (attemptsFor (process_bookings_home_oriented O vehicles bookings).attempts
      b.booking_id)
    ∧ (failedFinal (attemptsFor
          (process_bookings_home_oriented O vehicles bookings).attempts b.booking_id) = true
        → b ∈ (process_bookings_home_oriented O vehicles bookings).unassigned_bookings) := by
  obtain ⟨h1, h2⟩ := processLoop_attempts O bookings (sortByPickup bookings).reverse hids
    (fun x hx => sortByPickup_mem.mp (List.mem_reverse.mp hx)) b hb
    (sortByPickup bookings)
    { vehicles := vehicles, assigned_ids := [], log := [], attempts := [] }
    (fun x hx => htt x (sortByPickup_mem.mp hx))
    (sortByPickup_sorted bookings)
    (((sortByPickup_perm bookings).map (fun x => x.booking_id)).nodup_iff.mpr hids)
    rfl
    (sortByPickup_mem.mpr hb)
  have hatteq : (process_bookings_home_oriented O vehicles bookings).attempts
      = ((sortByPickup bookings).foldl
          (processBooking O bookings (sortByPickup bookings).reverse)
          { vehicles := vehicles, assigned_ids := [],
            log := [], attempts := [] }).attempts := rfl
  have huneq : (process_bookings_home_oriented O vehicles bookings).unassigned_bookings
      = bookings.filter (fun x =>
          !(((sortByPickup bookings).foldl
              (processBooking O bookings (sortByPickup bookings).reverse)
              { vehicles := vehicles, assigned_ids := [],
                log := [], attempts := [] }).assigned_ids.contains x.booking_id)) := rfl
  refine ⟨by rw [hatteq]; exact h1, ?_⟩
  intro hff
  rw [hatteq] at hff
  rw [huneq]
  refine List.mem_filter.mpr ⟨hb, ?_⟩
  simp only [Bool.not_eq_true']
  exact contains_eq_false_iff.mpr (h2 hff)

end Dispatch

namespace Dispatch

/-- Witness for C8: the retry/unassigned property applied to the class-9 run
`runF`, whose only booking finds no candidate in the empty fleet. -/
theorem C8_class_upgrade_retry_witness :
    (ShapeOK Examples.bkC9 (attemptsFor (Examples.runF).attempts
        Examples.bkC9.booking_id)
      ∧ (failedFinal (attemptsFor (Examples.runF).attempts
            Examples.bkC9.booking_id) = true
          → Examples.bkC9 ∈ (Examples.runF).unassigned_bookings)) :=
  C8_class_upgrade_retry Examples.uniformO [] [Examples.bkC9]
    (by decide)
    (by
      intro x hx
      rw [List.mem_singleton] at hx
      rw [hx]
      norm_num [Examples.bkC9])
    Examples.bkC9 (List.mem_singleton.mpr rfl)

end Dispatch
